import Mathlib

/-!
Shallow embedding of the HAC-NDNQI data-preparation pipeline
(src/helper_functions.py and src/large_hospital_dataset_cleaning.py).

The pipeline decorates raw hospital-event records with calendar-period
labels (AddDateColumns), aggregates them per category and period
(aggregate_dataframe, which sorts through sort_by_date and assigns a
reverse row number), computes rolling statistical-process-control columns
per Measure (rolling_spc_agg), relabels quarter periods for display and
concatenates the three granularities (module-level code of
large_hospital_dataset_cleaning.py).

Numbers are embedded exactly: a pandas float is either an exact rational,
NaN (which doubles as the null marker of a float column) or a signed
infinity.  The SPC output columns of a row with an all-finite window are
numbers of the form a + b * sqrt v, where v is the sample variance of the
window; they are represented exactly by the triple (a, b, v).
-/

/-- Pandas float value: an exact finite value (idealised as a rational),
NaN (also the null marker of a float column), or a signed infinity. -/
inductive PFloat where
  | fin (q : ℚ)
  | nan
  | inf
  | ninf
  deriving DecidableEq, Repr

namespace PFloat

/-- True exactly for NaN, the value pandas isna flags in a float column. -/
def isNan : PFloat → Bool
  | nan => true
  | _ => false

/-- True exactly for finite values. -/
def isFinite : PFloat → Bool
  | fin _ => true
  | _ => false

/-- Finite payload, defaulting to 0 on non-finite values. -/
def toQ : PFloat → ℚ
  | fin q => q
  | _ => 0

/-- Division of two float columns as numpy performs it: a nonzero value
divided by zero gives a signed infinity, zero over zero gives NaN, and NaN
propagates.  No exception is raised. -/
def div : PFloat → PFloat → PFloat
  | fin a, fin b =>
      if b = 0 then (if 0 < a then inf else if a < 0 then ninf else nan)
      else fin (a / b)
  | nan, _ => nan
  | _, nan => nan
  | inf, fin b => if b < 0 then ninf else inf
  | ninf, fin b => if b < 0 then inf else ninf
  | inf, inf => nan
  | inf, ninf => nan
  | ninf, inf => nan
  | ninf, ninf => nan
  | fin _, inf => fin 0
  | fin _, ninf => fin 0

/-- Multiplication of two float columns in numpy semantics: NaN propagates
and an infinity times zero is NaN. -/
def mul : PFloat → PFloat → PFloat
  | fin a, fin b => fin (a * b)
  | nan, _ => nan
  | _, nan => nan
  | inf, fin b => if 0 < b then inf else if b < 0 then ninf else nan
  | fin a, inf => if 0 < a then inf else if a < 0 then ninf else nan
  | ninf, fin b => if 0 < b then ninf else if b < 0 then inf else nan
  | fin a, ninf => if 0 < a then ninf else if a < 0 then inf else nan
  | inf, inf => inf
  | inf, ninf => ninf
  | ninf, inf => ninf
  | ninf, ninf => inf

end PFloat

/-- Value of an SPC output column.  A finite value is a + b * sqrt v with
a, b, v rational and v the sample variance of the rolling window the row
was computed from (v is shared by all eight SPC columns of one row);
NaN and the signed infinities are separate constructors. -/
inductive SVal where
  | fin (a b v : ℚ)
  | nan
  | inf
  | ninf
  deriving DecidableEq, Repr

namespace SVal

/-- True exactly for NaN, which pandas isna reports as null. -/
def isNan : SVal → Bool
  | nan => true
  | _ => false

/-- True exactly for finite values. -/
def isFinite : SVal → Bool
  | fin _ _ _ => true
  | _ => false

/-- Decides whether a + b * sqrt v is negative, assuming 0 ≤ v. -/
def negB (a b v : ℚ) : Bool :=
  if a < 0 then (if b ≤ 0 then true else decide (b * b * v < a * a))
  else (if b < 0 then decide (a * a < b * b * v) else false)

/-- Real number denoted by a finite SVal (0 on the non-finite markers,
which carry no real value). -/
noncomputable def val : SVal → ℝ
  | fin a b v => (a : ℝ) + (b : ℝ) * Real.sqrt (v : ℝ)
  | _ => 0

/-- Scalar multiple of a float column (the products k * Rolling_Std formed
by calc_rolling).  NaN propagates; zero times infinity is NaN. -/
def smul (k : ℚ) : SVal → SVal
  | fin a b v => fin (k * a) (k * b) v
  | nan => nan
  | inf => if 0 < k then inf else if k < 0 then ninf else nan
  | ninf => if 0 < k then ninf else if k < 0 then inf else nan

/-- Sum of two float columns in IEEE semantics.  The code only ever adds
SPC values derived from one and the same window, whose finite
representations share the variance payload v; the sum of finite values
with distinct payloads is not representable as a single triple and is
never formed by the embedded code, so that branch is mapped to NaN. -/
def add : SVal → SVal → SVal
  | fin a b v, fin c d w => if v = w then fin (a + c) (b + d) v else nan
  | nan, _ => nan
  | fin _ _ _, nan => nan
  | inf, nan => nan
  | ninf, nan => nan
  | inf, ninf => nan
  | ninf, inf => nan
  | inf, fin _ _ _ => inf
  | fin _ _ _, inf => inf
  | inf, inf => inf
  | ninf, fin _ _ _ => ninf
  | fin _ _ _, ninf => ninf
  | ninf, ninf => ninf

/-- Difference of two float columns, as formed by Rolling_CL - k * Rolling_Std. -/
def sub (x y : SVal) : SVal := add x (smul (-1) y)

/-- Pandas Series.clip(lower=0): finite negatives are raised to 0,
negative infinity is raised to 0, NaN and positive infinity pass through. -/
def clip0 : SVal → SVal
  | fin a b v => if negB a b v then fin 0 0 0 else fin a b v
  | nan => nan
  | inf => inf
  | ninf => fin 0 0 0

end SVal

/-- Arithmetic mean of the rates in a full window of size W (pandas
rolling mean divides by the number of observations, which is W whenever
the minimum-periods requirement is met). -/
def listMean (W : Nat) (qs : List ℚ) : ℚ := qs.sum / (W : ℚ)

/-- Sample variance of a full window of size W with one delta degree of
freedom, the default of pandas rolling std. -/
def sampleVar (W : Nat) (qs : List ℚ) : ℚ :=
  ((qs.map (fun x => (x - listMean W qs) ^ 2)).sum) / ((W : ℚ) - 1)

/-- Structural split of a character list on one separator character,
with the semantics of str.split: n separators give n+1 (possibly empty)
pieces. -/
def splitOnChar (sep : Char) : List Char → List (List Char)
  | [] => [[]]
  | c :: cs =>
      if c = sep then [] :: splitOnChar sep cs
      else
        match splitOnChar sep cs with
        | [] => [[c]]
        | p :: ps => (c :: p) :: ps

/-- Split of a string on the period-label separator (kernel-reducible
counterpart of splitOn, which this pipeline only calls with a one
character separator). -/
def splitDash (s : String) : List String := (splitOnChar '-' s.data).map String.mk

/-- Digits-only natural number parse: no sign, at least one digit. -/
def digitsToNat? (l : List Char) : Option Nat :=
  if l = [] then none
  else if l.all Char.isDigit then
    some (l.foldl (fun acc c => acc * 10 + (c.toNat - 48)) 0)
  else none

/-- Integer parse as Python int(str) accepts the strings arising here: an
optional leading minus sign followed by decimal digits.  Strings such as
"nan" or "2024.0" are rejected, exactly as pandas astype(int) rejects
them with a ValueError. -/
def strToInt? (s : String) : Option Int :=
  match s.data with
  | [] => none
  | c :: cs =>
      if c = '-' then (digitsToNat? cs).map (fun n => -(n : Int))
      else (digitsToNat? (c :: cs)).map (fun n => (n : Int))

/-- Python str.zfill for the nonnegative strings used here: left-pad with
zeros up to the requested width. -/
def zfill (w : Nat) (s : String) : String :=
  if s.length < w then String.mk (List.replicate (w - s.length) '0') ++ s else s

/-- A parsed calendar date, reduced to the components the pipeline reads
(pandas dt.year and dt.month; dt.quarter is derived from the month). -/
structure PDate where
  year : Int
  month : Nat
  deriving DecidableEq, Repr

/-- Pandas quarter of a month number (1..12 gives 1..4). -/
def quarterOf (m : Nat) : Nat := (m + 2) / 3

/-- Embedding of pandas to_datetime with coercion of errors, restricted to
the ISO-like strings exercised by this dataset: YYYY-MM or YYYY-MM-DD with
all-digit components, month 1..12 and day 1..31.  Every other string
coerces to NaT, represented as none. -/
def parseDate (s : String) : Option PDate :=
  match splitDash s with
  | [y, m] =>
      match digitsToNat? y.data, digitsToNat? m.data with
      | some yn, some mn =>
          if 1 ≤ mn ∧ mn ≤ 12 then some { year := (yn : Int), month := mn } else none
      | _, _ => none
  | [y, m, d] =>
      match digitsToNat? y.data, digitsToNat? m.data, digitsToNat? d.data with
      | some yn, some mn, some dn =>
          if 1 ≤ mn ∧ mn ≤ 12 ∧ 1 ≤ dn ∧ dn ≤ 31 then
            some { year := (yn : Int), month := mn }
          else none
      | _, _, _ => none
  | _ => none

/-- Rendering of one entry of an integer-valued datetime component column
as astype(str) prints it.  When the column contains no NaT the component
series has integer dtype and prints 2024 as "2024"; as soon as one NaT is
present the whole series is float dtype, so the same entry prints as
"2024.0" and a NaT entry prints as "nan". -/
def intLabel (hasNaT : Bool) (n : Option Int) : String :=
  match n, hasNaT with
  | some k, false => toString k
  | some k, true => toString k ++ ".0"
  | none, _ => "nan"

/-- One raw record of the ingested table, after the module-level cleaning
steps of large_hospital_dataset_cleaning.py (rounded Expected Events and
the Measure-determined Multiplier and Definitions columns). -/
structure RawRow where
  Measure : String
  Definitions : String
  Multiplier : Int
  Numerator : Int
  Denominator : Int
  Expected_Events : Int
  date : String
  deriving DecidableEq, Repr

/-- A raw record decorated by AddDateColumns: the date column replaced by
its parsed (or coerced-to-NaT) value plus the three period-label columns. -/
structure DecRow extends RawRow where
  parsed : Option PDate
  Year : String
  Quarter : String
  Month : String
  deriving DecidableEq, Repr

/-- Embedding of AddDateColumns (src/helper_functions.py lines 31-43):
copies the table, coerces the date column with to_datetime, and renders
the Year, Quarter and Month label columns from the parsed components.
Because the component series of a column containing at least one NaT are
float typed, the rendering of every label in the table depends on whether
any date in the column failed to parse. -/
def AddDateColumns (df : List RawRow) : List DecRow :=
  let hasNaT := df.any (fun r => (parseDate r.date).isNone)
  df.map (fun r =>
    let p := parseDate r.date
    let y := intLabel hasNaT (p.map (fun d => d.year))
    let q := intLabel hasNaT (p.map (fun d => (quarterOf d.month : Int)))
    let mo := intLabel hasNaT (p.map (fun d => (d.month : Int)))
    { toRawRow := r
      parsed := p
      Year := y
      Quarter := y ++ "-" ++ q
      Month := y ++ "-" ++ zfill 2 mo })

/-- One aggregated row: one category key and one period label with summed
counters, the frequency tag and the derived Rate. -/
structure AggRow where
  Measure : String
  Definitions : String
  Multiplier : Int
  Numerator : Int
  Denominator : Int
  Expected_Events : Int
  frequency : String
  Rate : PFloat
  Date : String
  deriving DecidableEq, Repr

/-- Boolean strict lexicographic comparison of character lists by code
point, the order in which the string sort keys of this pipeline compare.
Written as a structural recursion so that concrete sort computations
reduce inside the kernel (the library decision procedure for the order on
String is not kernel-reducible). -/
def charListLtB : List Char → List Char → Bool
  | [], [] => false
  | [], _ :: _ => true
  | _ :: _, [] => false
  | c :: cs, d :: ds => if c = d then charListLtB cs ds else decide (c.toNat < d.toNat)

theorem charListLtB_iff : ∀ as bs : List Char,
    charListLtB as bs = true ↔ List.Lex (fun c d => c < d) as bs := by
  intro as
  induction as with
  | nil =>
      intro bs
      cases bs with
      | nil => simp [charListLtB]
      | cons d ds => simp [charListLtB]; exact List.Lex.nil
  | cons c cs ih =>
      intro bs
      cases bs with
      | nil => simp [charListLtB]
      | cons d ds =>
          by_cases hcd : c = d
          · subst hcd
            have hred : charListLtB (c :: cs) (c :: ds) = charListLtB cs ds := by
              simp [charListLtB]
            rw [hred, ih ds]
            constructor
            · exact fun h => List.Lex.cons h
            · intro h
              cases h with
              | cons h2 => exact h2
              | rel h2 => exact absurd h2 (lt_irrefl c)
          · have hred : charListLtB (c :: cs) (d :: ds) = decide (c.toNat < d.toNat) := by
              simp [charListLtB, hcd]
            rw [hred]
            simp only [decide_eq_true_eq]
            constructor
            · intro h
              exact List.Lex.rel h
            · intro h
              cases h with
              | cons h2 => exact absurd rfl hcd
              | rel h2 => exact h2

/-- Kernel-reducible decision of the String strict order. -/
def decStrLt (s t : String) : Decidable (s < t) :=
  decidable_of_iff (charListLtB s.data t.data = true)
    ((charListLtB_iff s.data t.data).trans (Iff.symm String.lt_iff_toList_lt))

instance (priority := 2000) decStrLtInst : ∀ s t : String, Decidable (s < t) := decStrLt

/-- Kernel-reducible decision of the String order. -/
def decStrLe (s t : String) : Decidable (s ≤ t) :=
  decidable_of_iff (charListLtB t.data s.data = false) (by
    rw [Bool.eq_false_iff]
    constructor
    · intro h
      rw [← not_lt]
      intro hlt
      exact h ((charListLtB_iff t.data s.data).mpr (String.lt_iff_toList_lt.mp hlt))
    · intro h hb
      exact (not_lt.mpr h) (String.lt_iff_toList_lt.mpr ((charListLtB_iff t.data s.data).mp hb)))

instance (priority := 2000) decStrLeInst : ∀ s t : String, Decidable (s ≤ t) := decStrLe

instance (priority := 2000) decLexSII :
    ∀ a b : Lex (String × Lex (Int × Int)), Decidable (a ≤ b) :=
  fun a b => decidable_of_iff _ (Iff.symm (Prod.Lex.le_iff (ofLex a) (ofLex b)))

instance (priority := 2000) decLexIS :
    ∀ a b : Lex (Int × String), Decidable (a ≤ b) :=
  fun a b => decidable_of_iff _ (Iff.symm (Prod.Lex.le_iff (ofLex a) (ofLex b)))

instance (priority := 2000) decLexSIS :
    ∀ a b : Lex (String × Lex (Int × String)), Decidable (a ≤ b) :=
  fun a b => decidable_of_iff _ (Iff.symm (Prod.Lex.le_iff (ofLex a) (ofLex b)))

instance (priority := 2000) decLexSSIS :
    ∀ a b : Lex (String × Lex (String × Lex (Int × String))), Decidable (a ≤ b) :=
  fun a b => decidable_of_iff _ (Iff.symm (Prod.Lex.le_iff (ofLex a) (ofLex b)))

/-- Chronological sort key of an aggregated row: Measure, then year, then
sub-period, compared lexicographically. -/
def aggKey (p : AggRow × Int × Int) : Lex (String × Lex (Int × Int)) :=
  toLex (p.1.Measure, toLex (p.2.1, p.2.2))

/-- Ordering used to sort keyed aggregated rows. -/
def aggRel (p q : AggRow × Int × Int) : Prop := aggKey p ≤ aggKey q

instance : DecidableRel aggRel := fun p q => decLexSII (aggKey p) (aggKey q)

instance : IsTrans (AggRow × Int × Int) aggRel := ⟨fun _ _ _ hab hbc => le_trans hab hbc⟩

instance : IsTotal (AggRow × Int × Int) aggRel := ⟨fun a b => le_total (aggKey a) (aggKey b)⟩

/-- Option-valued map over a list, failing when any element fails (the
way a whole-column conversion such as astype(int) raises on the first bad
cell). -/
def mapO {A B : Type} (f : A → Option B) : List A → Option (List B)
  | [] => some []
  | x :: xs =>
      match f x, mapO f xs with
      | some y, some ys => some (y :: ys)
      | _, _ => none

/-- Parse of a two-component period label, as the str.split("-",
expand=True) step followed by astype(int) consumes it: exactly one
separator and two integer components. -/
def parseYS (s : String) : Option (Int × Int) :=
  match splitDash s with
  | [a, b] =>
      match strToInt? a, strToInt? b with
      | some y, some sub => some (y, sub)
      | _, _ => none
  | _ => none

/-- Embedding of sort_by_date (src/helper_functions.py lines 71-90) as a
function on the row list.  The Year branch parses the whole Date column
with astype(int); the Quarter branch and the assumed-Month else branch
split the label on the separator and parse both components.  A label the
parse cannot consume raises a ValueError in the source, modelled as an
error result (the sort itself then maps rows sorted by Measure, year and
sub-period).  labelKey is that per-label integer key parse. -/
def labelKey (frequency : String) (d : String) : Option (Int × Int) :=
  if frequency = "Year" then (strToInt? d).map (fun y => (y, (0 : Int)))
  else parseYS d

/-- Embedding of sort_by_date continued: rows keyed by labelKey. -/
def sort_by_date (rows : List AggRow) (frequency : String) : Except String (List AggRow) :=
  let keyed? : Option (List (AggRow × Int × Int)) :=
    mapO (fun r => (labelKey frequency r.Date).map (fun p => (r, p.1, p.2))) rows
  match keyed? with
  | none => .error "period label does not parse as an integer sort key"
  | some keyed => .ok ((List.insertionSort aggRel keyed).map (fun p => p.1))

/-- An aggregated row with its reverse-chronological rank per Measure. -/
structure NRow extends AggRow where
  RowNumber : Nat
  deriving DecidableEq, Repr

/-- Embedding of the RowNumber assignment (src/helper_functions.py lines
150-153): groupby("Measure").cumcount(ascending=False) + 1 gives each row
one plus the number of later rows of the same Measure. -/
def addRowNumbers : List AggRow → List NRow
  | [] => []
  | r :: rest =>
      { toAggRow := r
        RowNumber := 1 + rest.countP (fun x => decide (x.Measure = r.Measure)) }
        :: addRowNumbers rest

/-- Grouping key of aggregate_dataframe: the category columns Measure,
Definitions, Multiplier plus the selected period-label column. -/
def gKey (sel : DecRow → String) (r : DecRow) : String × String × Int × String :=
  (r.Measure, r.Definitions, r.Multiplier, sel r)

/-- Lexicographic view of a grouping key. -/
def gKeyLex (k : String × String × Int × String) :
    Lex (String × Lex (String × Lex (Int × String))) :=
  toLex (k.1, toLex (k.2.1, toLex (k.2.2.1, k.2.2.2)))

/-- Ordering of grouping keys; pandas groupby sorts the groups by key in
ascending order. -/
def gRel (a b : String × String × Int × String) : Prop := gKeyLex a ≤ gKeyLex b

instance : DecidableRel gRel := fun a b => decLexSSIS (gKeyLex a) (gKeyLex b)

/-- Distinct grouping keys of a decorated table, in the ascending order
pandas groupby emits the groups. -/
def groupKeys (df : List DecRow) (sel : DecRow → String) :
    List (String × String × Int × String) :=
  List.insertionSort gRel ((df.map (gKey sel)).dedup)

/-- Embedding of aggregate_dataframe (src/helper_functions.py lines
93-156) at the columns this pipeline uses: group by (Measure,
Definitions, Multiplier, period label), sum Numerator, Denominator and
Expected Events, tag the frequency, derive Rate = Numerator / Denominator
* Multiplier in float semantics, rename the period column to Date, sort
through sort_by_date and assign the reverse RowNumber.  The sort step can
raise, which propagates as an error result.  aggRowOf builds the
aggregated row of one grouping key. -/
def aggRowOf (df : List DecRow) (sel : DecRow → String) (frequency : String)
    (k : String × String × Int × String) : AggRow :=
  let grp := df.filter (fun r => decide (gKey sel r = k))
  let num := (grp.map (fun r => r.Numerator)).sum
  let den := (grp.map (fun r => r.Denominator)).sum
  let ev := (grp.map (fun r => r.Expected_Events)).sum
  { Measure := k.1
    Definitions := k.2.1
    Multiplier := k.2.2.1
    Numerator := num
    Denominator := den
    Expected_Events := ev
    frequency := frequency
    Rate := PFloat.mul (PFloat.div (PFloat.fin (num : ℚ)) (PFloat.fin (den : ℚ)))
                       (PFloat.fin (k.2.2.1 : ℚ))
    Date := k.2.2.2 }

/-- Embedding of aggregate_dataframe continued: one aggregated row per
sorted distinct grouping key, then the sort and the RowNumber column. -/
def aggregate_dataframe (df : List DecRow) (sel : DecRow → String)
    (frequency : String) : Except String (List NRow) :=
  match sort_by_date ((groupKeys df sel).map (aggRowOf df sel frequency)) frequency with
  | .error e => .error e
  | .ok sorted => .ok (addRowNumbers sorted)

/-- An aggregated row with the eight SPC columns appended. -/
structure SpcRow extends NRow where
  Rolling_CL : SVal
  Rolling_Std : SVal
  Rolling_UCL_1STD : SVal
  Rolling_LCL_1STD : SVal
  Rolling_UCL_2STD : SVal
  Rolling_LCL_2STD : SVal
  Rolling_UCL_3STD : SVal
  Rolling_LCL_3STD : SVal
  deriving DecidableEq, Repr

/-- The closed-left rolling window of pandas rolling(window=W,
closed=left) at position i: the up to W values strictly preceding i. -/
def windowAt (rates : List PFloat) (W i : Nat) : List PFloat :=
  (rates.take i).drop (i - W)

/-- The rolling mean and rolling sample standard deviation pandas computes
over one closed-left window with min_periods equal to the window size W.
The result is NaN while fewer than W observations are in the window (NaN
rates do not count as observations), the mean of a window holding an
infinity is the corresponding infinity, the standard deviation of such a
window is NaN, and for an all-finite full window both are finite, the
standard deviation being the square root of the sample variance (NaN when
W = 1, where the one-delta-degree-of-freedom variance is 0 over 0). -/
def rollMeanStd (W : Nat) (win : List PFloat) : SVal × SVal :=
  if win.length < W ∨ win.any PFloat.isNan then (SVal.nan, SVal.nan)
  else if PFloat.inf ∈ win ∧ PFloat.ninf ∈ win then (SVal.nan, SVal.nan)
  else if PFloat.inf ∈ win then (SVal.inf, SVal.nan)
  else if PFloat.ninf ∈ win then (SVal.ninf, SVal.nan)
  else
    let qs := win.map PFloat.toQ
    if W ≤ 1 then (SVal.fin (listMean W qs) 0 0, SVal.nan)
    else
      let v := sampleVar W qs
      (SVal.fin (listMean W qs) 0 v, SVal.fin 0 1 v)

/-- The six control-limit columns calc_rolling derives columnwise from
Rolling_CL and Rolling_Std, collected with them into one record. -/
structure SpcFields where
  cl : SVal
  std : SVal
  u1 : SVal
  l1 : SVal
  u2 : SVal
  l2 : SVal
  u3 : SVal
  l3 : SVal
  deriving DecidableEq, Repr

/-- The eight SPC columns of one row, derived from its window exactly as
the assignments of calc_rolling (src/helper_functions.py lines 193-215). -/
def spcOfWindow (W : Nat) (win : List PFloat) : SpcFields :=
  let ms := rollMeanStd W win
  { cl := ms.1
    std := ms.2
    u1 := SVal.add ms.1 (SVal.smul 1 ms.2)
    l1 := SVal.clip0 (SVal.sub ms.1 (SVal.smul 1 ms.2))
    u2 := SVal.add ms.1 (SVal.smul 2 ms.2)
    l2 := SVal.clip0 (SVal.sub ms.1 (SVal.smul 2 ms.2))
    u3 := SVal.add ms.1 (SVal.smul 3 ms.2)
    l3 := SVal.clip0 (SVal.sub ms.1 (SVal.smul 3 ms.2)) }

/-- Structural map with the element position passed to the function,
counting from the given start index. -/
def mapIdxFrom {A B : Type} (f : Nat → A → B) : Nat → List A → List B
  | _, [] => []
  | i, x :: xs => f i x :: mapIdxFrom f (i + 1) xs

/-- An aggregated row paired with the SPC columns of one window. -/
def mkSpc (r : NRow) (f : SpcFields) : SpcRow :=
  { toNRow := r
    Rolling_CL := f.cl
    Rolling_Std := f.std
    Rolling_UCL_1STD := f.u1
    Rolling_LCL_1STD := f.l1
    Rolling_UCL_2STD := f.u2
    Rolling_LCL_2STD := f.l2
    Rolling_UCL_3STD := f.u3
    Rolling_LCL_3STD := f.l3 }

/-- Application of calc_rolling to the rows of one Measure group, kept in
their incoming order: each row receives the SPC fields of its closed-left
window over the Rate column of the group. -/
def rolling_spc_measure (W : Nat) (group : List NRow) : List SpcRow :=
  mapIdxFrom (fun i r =>
    mkSpc r (spcOfWindow W (windowAt (group.map (fun r => r.Rate)) W i))) 0 group

/-- The distinct Measure values of a table in ascending order (pandas
groupby emits the groups in ascending key order). -/
def measuresOf (rows : List NRow) : List String :=
  List.insertionSort (fun a b : String => a ≤ b) ((rows.map (fun r => r.Measure)).dedup)

/-- Replaces all eight SPC columns of a row by NaN (the loc-mask
assignment of np.nan). -/
def nullSpc (r : SpcRow) : SpcRow :=
  { r with
    Rolling_CL := SVal.nan
    Rolling_Std := SVal.nan
    Rolling_UCL_1STD := SVal.nan
    Rolling_LCL_1STD := SVal.nan
    Rolling_UCL_2STD := SVal.nan
    Rolling_LCL_2STD := SVal.nan
    Rolling_UCL_3STD := SVal.nan
    Rolling_LCL_3STD := SVal.nan }

/-- Embedding of rolling_spc_agg (src/helper_functions.py lines 162-232):
apply calc_rolling separately to each Measure group (groups in ascending
key order, rows of a group in their incoming order), then null out the
SPC columns of every row whose frequency is "Year".  The sigma parameter
is accepted, as in the source, and read nowhere. -/
def rolling_spc_agg (df : List NRow) (window_size : Nat) (sigma : ℚ) : List SpcRow :=
  let grouped := (measuresOf df).map (fun m =>
    rolling_spc_measure window_size (df.filter (fun r => decide (r.Measure = m))))
  grouped.flatten.map (fun r => if r.frequency = "Year" then nullSpc r else r)

/-- Character-level implementation of the regular-expression substitution
str.replace of "-(\d+)" by "-Q\1" (all occurrences).  The substitution
only inserts a Q between a separator and the nonempty digit run following
it, which a single left-to-right pass performs: a Q is emitted after
every dash whose next character is a digit. -/
def relabelChars : List Char → List Char
  | [] => []
  | c :: rest =>
      if c = '-' ∧ (rest.headD 'x').isDigit then '-' :: 'Q' :: relabelChars rest
      else c :: relabelChars rest

/-- The quarter display relabel on one Date string. -/
def adjustQuarterDate (s : String) : String := String.mk (relabelChars s.data)

/-- Embedding of the module-level quarter relabel
(src/large_hospital_dataset_cleaning.py lines 117-120): the Date label of
exactly the rows whose frequency is "Quarter" is rewritten through the
regular-expression substitution; all other fields and rows are untouched. -/
def quarterRelabel (rows : List SpcRow) : List SpcRow :=
  rows.map (fun r =>
    if r.frequency = "Quarter" then { r with Date := adjustQuarterDate r.Date } else r)

/-- Embedding of the module-level pipeline of
large_hospital_dataset_cleaning.py from the decorated table onward: the
three aggregations (the script runs the Year one first), the three
rolling-SPC passes with the window sizes 24, 8 and 2, the quarter
relabel, and the concatenation of the month, quarter and year results in
that order.  An aggregation error aborts the run, as an uncaught
ValueError does in the script. -/
def pipelineFinal (raw : List RawRow) : Except String (List SpcRow) :=
  let dec := AddDateColumns raw
  match aggregate_dataframe dec (fun r => r.Year) "Year" with
  | .error e => .error e
  | .ok aggY =>
    match aggregate_dataframe dec (fun r => r.Quarter) "Quarter" with
    | .error e => .error e
    | .ok aggQ =>
      match aggregate_dataframe dec (fun r => r.Month) "Month" with
      | .error e => .error e
      | .ok aggM =>
        let spcM := rolling_spc_agg aggM 24 3
        let spcQ := rolling_spc_agg aggQ 8 3
        let spcY := rolling_spc_agg aggY 2 3
        .ok (spcM ++ quarterRelabel spcQ ++ spcY)

/-- A cell of a column-level table: a string, an integer, a float or a
parsed-datetime entry. -/
inductive Val where
  | vs (s : String)
  | vi (n : Int)
  | vf (x : PFloat)
  | vd (d : Option PDate)
  deriving DecidableEq, Repr

/-- Column-level view of a DataFrame: the ordered column names and the
rows, each row holding one cell per column. -/
structure Frame where
  cols : List String
  rows : List (List Val)
  deriving DecidableEq, Repr

/-- Position of a column name. -/
def Frame.colIdx (f : Frame) (c : String) : Option Nat :=
  f.cols.findIdx? (fun n => n == c)

/-- Values of a column, or none when the name is absent (a lookup of an
absent column raises a KeyError in pandas). -/
def Frame.getCol (f : Frame) (c : String) : Option (List Val) :=
  (f.colIdx c).map (fun j => f.rows.map (fun r => r.getD j (Val.vs "")))

/-- Column assignment df[c] = vals: overwrites the column in place when
the name exists and appends a new rightmost column otherwise. -/
def Frame.setCol (f : Frame) (c : String) (vals : List Val) : Frame :=
  match f.colIdx c with
  | some j => { cols := f.cols, rows := f.rows.zipWith (fun r v => r.set j v) vals }
  | none => { cols := f.cols ++ [c], rows := f.rows.zipWith (fun r v => r ++ [v]) vals }

/-- df.drop(columns=[c]). -/
def Frame.dropCol (f : Frame) (c : String) : Frame :=
  match f.colIdx c with
  | some j => { cols := f.cols.eraseIdx j, rows := f.rows.map (fun r => r.eraseIdx j) }
  | none => f

/-- String payload of a cell (the Measure sort key; that column holds
strings in every table of this pipeline). -/
def valStr : Val → String
  | Val.vs s => s
  | _ => ""

/-- Integer payload of a cell, 0 otherwise. -/
def valInt : Val → Int
  | Val.vi n => n
  | _ => 0

/-- Sort key of one frame row for sort_by_date: the Measure cell, the
year and the sub-period, compared lexicographically.  The positions jm,
jy and js locate the three key columns; a missing sub-period column
(the Year branch sorts on two keys only) is passed as none. -/
def frameRowKey (jm jy : Nat) (js : Option Nat) (r : List Val) :
    Lex (String × Lex (Int × Int)) :=
  toLex (valStr (r.getD jm (Val.vs "")),
    toLex (valInt (r.getD jy (Val.vi 0)),
      match js with
      | some j => valInt (r.getD j (Val.vi 0))
      | none => 0))

/-- Ordering of frame rows under frameRowKey. -/
def frameRel (jm jy : Nat) (js : Option Nat) (a b : List Val) : Prop :=
  frameRowKey jm jy js a ≤ frameRowKey jm jy js b

instance : ∀ jm jy js, DecidableRel (frameRel jm jy js) :=
  fun jm jy js a b => decLexSII (frameRowKey jm jy js a) (frameRowKey jm jy js b)

/-- The astype(int) coercion of one cell of an object column: string
cells must parse as integers, integer cells pass through, anything else
(a NaT, a float) raises. -/
def cellToInt? (v : Val) : Option Int :=
  match v with
  | Val.vs s => strToInt? s
  | Val.vi n => some n
  | _ => none

/-- Column-level embedding of sort_by_date (src/helper_functions.py lines
71-90), returning the state of the caller's table after the call together
with the returned table or the raised error.  The source assigns the
parsing helper columns directly on its argument (no copy is taken), so
those assignments are visible to the caller; the sorted table and the
helper-column drop are fresh objects.  In the Year branch the single
helper column Year is written only if the astype(int) conversion
succeeds, since the conversion is evaluated before the assignment; in the
Quarter and assumed-Month else branch the two string helper columns are
written by the split assignment before astype(int) runs, so they remain
written even when the integer conversion then raises. -/
def sort_by_dateF (df : Frame) (frequency : String) : Frame × Except String Frame :=
  if frequency = "Year" then
    match df.getCol "Date" with
    | none => (df, .error "KeyError: Date")
    | some dates =>
        match mapO cellToInt? dates with
        | none => (df, .error "invalid literal for int")
        | some ys =>
            let df1 := df.setCol "Year" (ys.map Val.vi)
            let jm := (df1.colIdx "Measure").getD 0
            let jy := (df1.colIdx "Year").getD 0
            let sorted : Frame :=
              { cols := df1.cols
                rows := List.insertionSort (frameRel jm jy none) df1.rows }
            (df1, .ok (sorted.dropCol "Year"))
  else
    let subName := if frequency = "Quarter" then "QuarterNum" else "MonthNum"
    match df.getCol "Date" with
    | none => (df, .error "KeyError: Date")
    | some dates =>
        match mapO (fun v =>
            match v with
            | Val.vs s =>
                match splitDash s with
                | [a, b] => some (a, b)
                | _ => none
            | _ => none) dates with
        | none => (df, .error "str.split does not expand to two columns")
        | some pairs =>
            let df1 := (df.setCol "Year" (pairs.map (fun p => Val.vs p.1))).setCol
              subName (pairs.map (fun p => Val.vs p.2))
            match mapO (fun p =>
                match strToInt? p.1, strToInt? p.2 with
                | some y, some q => some (y, q)
                | _, _ => none) pairs with
            | none => (df1, .error "invalid literal for int")
            | some keys =>
                let df2 := (df1.setCol "Year" (keys.map (fun k => Val.vi k.1))).setCol
                  subName (keys.map (fun k => Val.vi k.2))
                let jm := (df2.colIdx "Measure").getD 0
                let jy := (df2.colIdx "Year").getD 0
                let js := df2.colIdx subName
                let sorted : Frame :=
                  { cols := df2.cols
                    rows := List.insertionSort (frameRel jm jy js) df2.rows }
                (df2, .ok ((sorted.dropCol "Year").dropCol subName))

/-- Column-level embedding of AddDateColumns (src/helper_functions.py
lines 31-43), returning the state of the caller's table after the call
together with the result.  The source copies its argument before any
assignment (df = df.copy()), so the caller's table is returned unchanged;
the result carries the coerced date column and the three label columns. -/
def AddDateColumnsF (df : Frame) (dateCol : String) : Frame × Except String Frame :=
  match df.getCol dateCol with
  | none => (df, .error "KeyError: date column")
  | some cells =>
      let parsed := cells.map (fun v =>
        match v with
        | Val.vs s => parseDate s
        | Val.vd d => d
        | _ => none)
      let hasNaT := parsed.any Option.isNone
      let c1 := df.setCol dateCol (parsed.map Val.vd)
      let c2 := c1.setCol "Year"
        (parsed.map (fun p => Val.vs (intLabel hasNaT (p.map (fun d => d.year)))))
      let c3 := c2.setCol "Quarter"
        (parsed.map (fun p => Val.vs (intLabel hasNaT (p.map (fun d => d.year)) ++ "-" ++
          intLabel hasNaT (p.map (fun d => (quarterOf d.month : Int))))))
      let c4 := c3.setCol "Month"
        (parsed.map (fun p => Val.vs (intLabel hasNaT (p.map (fun d => d.year)) ++ "-" ++
          zfill 2 (intLabel hasNaT (p.map (fun d => (d.month : Int)))))))
      (df, .ok c4)

/-- State of the argument of aggregate_dataframe after the call
(src/helper_functions.py lines 93-156): the function only reads its
argument — df[group_by_cols + sum_cols] builds a fresh subset object, and
every later step (groupby-sum-reset_index, the derived columns, the
rename, sort_by_date and the RowNumber assignment) operates on frames the
function itself created — so the caller's table is unchanged. -/
def aggregateArgAfter (df : Frame) : Frame := df

/-- State of the argument of rolling_spc_agg after the call
(src/helper_functions.py lines 162-232): groupby(...).apply hands
calc_rolling a fresh per-group frame built by take, so the column
assignments inside calc_rolling land on those group copies, which are
concatenated into the returned frame; the caller's table is unchanged. -/
def rollingArgAfter (df : Frame) : Frame := df

/-- Chronological key re-derived from a row's Date label, defaulting to
(0, 0) where the label does not parse; every row emerging from a
successful sort_by_date call has a parsing label. -/
def dateKeyD (frequency : String) (d : String) : Lex (Int × Int) :=
  toLex ((labelKey frequency d).getD (0, 0))

/-- The chronological ordering the Period Sorter establishes: Measure
first, then the parsed (year, sub-period) key, lexicographically. -/
def rowLE (frequency : String) (a b : AggRow) : Prop :=
  toLex (a.Measure, dateKeyD frequency a.Date) ≤
  toLex (b.Measure, dateKeyD frequency b.Date)

/-- One row of a single-Measure monthly test table. -/
def mkMonthRow (rate : PFloat) (d : String) (rn : Nat) : NRow :=
  { Measure := "A"
    Definitions := "Per 100 surveyed patients"
    Multiplier := 100
    Numerator := 1
    Denominator := 1
    Expected_Events := 0
    frequency := "Month"
    Rate := rate
    Date := d
    RowNumber := rn }

/-- The six-month Rate series 10, 12, 11, 13, 9, 14 of the specification
scenario, as one chronologically sorted Measure category. -/
def exSix : List NRow :=
  [mkMonthRow (PFloat.fin 10) "2024-01" 6, mkMonthRow (PFloat.fin 12) "2024-02" 5,
   mkMonthRow (PFloat.fin 11) "2024-03" 4, mkMonthRow (PFloat.fin 13) "2024-04" 3,
   mkMonthRow (PFloat.fin 9) "2024-05" 2, mkMonthRow (PFloat.fin 14) "2024-06" 1]

/-- A sorted table whose first Rate is NaN, as a zero-over-zero
aggregation produces. -/
def exNanRate : List NRow :=
  [mkMonthRow PFloat.nan "2024-01" 3, mkMonthRow (PFloat.fin 1) "2024-02" 2,
   mkMonthRow (PFloat.fin 2) "2024-03" 1]

/-- A two-row all-finite sorted table, exercising window size one. -/
def exTwo : List NRow :=
  [mkMonthRow (PFloat.fin 1) "2024-01" 2, mkMonthRow (PFloat.fin 2) "2024-02" 1]

/-- Four raw records of one measure over three months; the two January
records aggregate into one row, and the March record carries a zero
denominator. -/
def exRaw : List RawRow :=
  [{ Measure := "A", Definitions := "D", Multiplier := 100, Numerator := 1,
     Denominator := 10, Expected_Events := 0, date := "2024-01-15" },
   { Measure := "A", Definitions := "D", Multiplier := 100, Numerator := 2,
     Denominator := 10, Expected_Events := 0, date := "2024-02-15" },
   { Measure := "A", Definitions := "D", Multiplier := 100, Numerator := 3,
     Denominator := 0, Expected_Events := 0, date := "2024-03-15" },
   { Measure := "A", Definitions := "D", Multiplier := 100, Numerator := 4,
     Denominator := 10, Expected_Events := 0, date := "2024-01-20" }]

/-- The same records plus one whose date value does not parse. -/
def exRawBad : List RawRow :=
  exRaw ++ [{ Measure := "A", Definitions := "D", Multiplier := 100, Numerator := 1,
              Denominator := 5, Expected_Events := 0, date := "notadate" }]

/-- Month-level aggregation of exRaw. -/
def exAggM : List NRow :=
  match aggregate_dataframe (AddDateColumns exRaw) (fun r => r.Month) "Month" with
  | .ok a => a
  | .error _ => []

/-- Rolling SPC (window 2) over the month-level aggregation of exRaw. -/
def exSpcM : List SpcRow := rolling_spc_agg exAggM 2 3

/-- A two-row, two-column frame with year-level Date labels. -/
def exFrame : Frame :=
  { cols := ["Measure", "Date"]
    rows := [[Val.vs "A", Val.vs "2025"], [Val.vs "A", Val.vs "2024"]] }

/-- Two quarter-labelled aggregated rows, out of chronological order. -/
def exAggQ : List AggRow :=
  [{ Measure := "A", Definitions := "D", Multiplier := 100, Numerator := 2,
     Denominator := 10, Expected_Events := 0, frequency := "Quarter",
     Rate := PFloat.fin 20, Date := "2024-2" },
   { Measure := "A", Definitions := "D", Multiplier := 100, Numerator := 1,
     Denominator := 10, Expected_Events := 0, frequency := "Quarter",
     Rate := PFloat.fin 10, Date := "2024-1" }]

theorem mapO_length {A B : Type} (f : A → Option B) :
    ∀ {l : List A} {l2 : List B}, mapO f l = some l2 → l2.length = l.length := by
  intro l
  induction l with
  | nil => intro l2 h; simp [mapO] at h; simp [h.symm]
  | cons x xs ih =>
      intro l2 h
      simp only [mapO] at h
      cases hf : f x with
      | none => rw [hf] at h; simp at h
      | some y =>
          rw [hf] at h
          cases hm : mapO f xs with
          | none => rw [hm] at h; simp at h
          | some ys =>
              rw [hm] at h
              simp at h
              rw [h.symm]
              simp [ih hm]

theorem mapO_mem {A B : Type} (f : A → Option B) :
    ∀ {l : List A} {l2 : List B}, mapO f l = some l2 →
      ∀ y ∈ l2, ∃ x ∈ l, f x = some y := by
  intro l
  induction l with
  | nil => intro l2 h; simp [mapO] at h; subst h; simp
  | cons x xs ih =>
      intro l2 h y hy
      simp only [mapO] at h
      cases hf : f x with
      | none => rw [hf] at h; simp at h
      | some z =>
          rw [hf] at h
          cases hm : mapO f xs with
          | none => rw [hm] at h; simp at h
          | some ys =>
              rw [hm] at h
              simp at h
              rw [h.symm] at hy
              cases hy with
              | head => exact ⟨x, List.mem_cons_self x xs, hf⟩
              | tail _ hy2 =>
                  obtain ⟨x2, hx2, hfx2⟩ := ih hm y hy2
                  exact ⟨x2, List.mem_cons_of_mem x hx2, hfx2⟩

theorem mapO_none {A B : Type} (f : A → Option B) :
    ∀ {l : List A}, (∃ x ∈ l, f x = none) → mapO f l = none := by
  intro l
  induction l with
  | nil => intro h; simp at h
  | cons x xs ih =>
      intro h
      simp only [mapO]
      obtain ⟨x2, hx2, hfx2⟩ := h
      cases hx2 with
      | head => rw [hfx2]
      | tail _ hmem =>
          rw [ih ⟨x2, hmem, hfx2⟩]
          cases f x <;> rfl

theorem mapO_map_back {A B : Type} (f : A → Option B) (g : B → A)
    (hg : ∀ x y, f x = some y → g y = x) :
    ∀ {l : List A} {l2 : List B}, mapO f l = some l2 → l2.map g = l := by
  intro l
  induction l with
  | nil => intro l2 h; simp [mapO] at h; simp [h.symm]
  | cons x xs ih =>
      intro l2 h
      simp only [mapO] at h
      cases hf : f x with
      | none => rw [hf] at h; simp at h
      | some y =>
          rw [hf] at h
          cases hm : mapO f xs with
          | none => rw [hm] at h; simp at h
          | some ys =>
              rw [hm] at h
              simp at h
              rw [h.symm]
              simp [hg x y hf, ih hm]

theorem pairwise_getLast {A : Type} (R : A → A → Prop) (hrefl : ∀ a, R a a) :
    ∀ (l : List A) (last : A), l.getLast? = some last → l.Pairwise R →
      ∀ x ∈ l, R x last := by
  intro l
  induction l with
  | nil => intro last h; simp at h
  | cons a t ih =>
      intro last hlast hpw x hx
      cases t with
      | nil =>
          simp at hlast
          cases hx with
          | head => rw [hlast.symm]; exact hrefl a
          | tail _ h2 => exact absurd h2 (List.not_mem_nil x)
      | cons b t2 =>
          have hlast2 : (b :: t2).getLast? = some last := by
            rw [List.getLast?_cons_cons] at hlast
            exact hlast
          have hpw2 := (List.pairwise_cons.mp hpw).2
          have hmem : last ∈ b :: t2 := by
            rw [List.getLast?_eq_getElem?] at hlast2
            exact List.getElem?_mem hlast2
          cases hx with
          | head => exact (List.pairwise_cons.mp hpw).1 last hmem
          | tail _ h2 => exact ih last hlast2 hpw2 x h2

theorem sort_by_date_ok {rows out : List AggRow} {frequency : String}
    (h : sort_by_date rows frequency = .ok out) :
    out.Perm rows ∧ out.Pairwise (rowLE frequency) ∧
      ∀ r ∈ rows, (labelKey frequency r.Date).isSome = true := by
  have hmain : ∀ keyed : List (AggRow × Int × Int),
      mapO (fun r => (labelKey frequency r.Date).map (fun p => (r, p.1, p.2))) rows =
        some keyed →
      out = (List.insertionSort aggRel keyed).map (fun p => p.1) →
      out.Perm rows ∧ out.Pairwise (rowLE frequency) ∧
        ∀ r ∈ rows, (labelKey frequency r.Date).isSome = true := by
    intro keyed hk hout
    have hperm0 : (List.insertionSort aggRel keyed).Perm keyed :=
      List.perm_insertionSort aggRel keyed
    have hfst : keyed.map (fun p => p.1) = rows := by
      apply mapO_map_back _ _ _ hk
      intro x y hxy
      cases hl : labelKey frequency x.Date with
      | none => rw [hl] at hxy; simp at hxy
      | some p => rw [hl] at hxy; simp at hxy; rw [hxy.symm]
    have hkeyfact : ∀ p ∈ keyed, labelKey frequency p.1.Date = some (p.2.1, p.2.2) := by
      intro p hp
      obtain ⟨r, _, hr⟩ := mapO_mem _ hk p hp
      cases hl : labelKey frequency r.Date with
      | none => rw [hl] at hr; simp at hr
      | some q =>
          rw [hl] at hr
          simp at hr
          rw [hr.symm]
          simp [hl]
    constructor
    · rw [hout, hfst.symm]
      exact hperm0.map (fun p => p.1)
    constructor
    · rw [hout]
      rw [List.pairwise_map]
      have hsorted := List.sorted_insertionSort aggRel keyed
      apply hsorted.imp_of_mem
      intro a b ha hb hab
      have ha2 := hperm0.mem_iff.mp ha
      have hb2 := hperm0.mem_iff.mp hb
      have hka := hkeyfact a ha2
      have hkb := hkeyfact b hb2
      simp only [aggRel] at hab
      simp only [rowLE, dateKeyD, hka, hkb, Option.getD_some]
      exact hab
    · intro r hr
      rw [hfst.symm] at hr
      simp at hr
      obtain ⟨y, s, hmem⟩ := hr
      have := hkeyfact (r, y, s) hmem
      simp at this
      simp [this]
  simp only [sort_by_date] at h
  cases hk : mapO (fun r => (labelKey frequency r.Date).map (fun p => (r, p.1, p.2))) rows with
  | none => rw [hk] at h; simp at h
  | some keyed =>
      rw [hk] at h
      simp at h
      exact hmain keyed hk h.symm

theorem addRowNumbers_map :
    ∀ l : List AggRow, (addRowNumbers l).map (fun r => r.toAggRow) = l := by
  intro l
  induction l with
  | nil => rfl
  | cons r rest ih => simp [addRowNumbers, ih]

theorem addRowNumbers_filter_length (m : String) :
    ∀ l : List AggRow,
      ((addRowNumbers l).filter (fun r => decide (r.Measure = m))).length =
        l.countP (fun r => decide (r.Measure = m)) := by
  intro l
  induction l with
  | nil => rfl
  | cons r rest ih =>
      simp only [addRowNumbers, List.filter, List.countP_cons]
      by_cases hm : r.Measure = m
      · simp [hm, ih, Nat.add_comm]
      · simp [hm, ih]

theorem addRowNumbers_rank (m : String) :
    ∀ (l : List AggRow) (i : Nat) (x : NRow),
      ((addRowNumbers l).filter (fun r => decide (r.Measure = m)))[i]? = some x →
      x.RowNumber =
        ((addRowNumbers l).filter (fun r => decide (r.Measure = m))).length - i := by
  intro l
  induction l with
  | nil => intro i x h; simp [addRowNumbers] at h
  | cons r rest ih =>
      intro i x h
      by_cases hm : r.Measure = m
      · have hfil : (addRowNumbers (r :: rest)).filter (fun r => decide (r.Measure = m)) =
            { toAggRow := r,
              RowNumber := 1 + rest.countP (fun y => decide (y.Measure = r.Measure)) } ::
            (addRowNumbers rest).filter (fun r => decide (r.Measure = m)) := by
          simp [addRowNumbers, List.filter, hm]
        rw [hfil] at h
        rw [hfil]
        cases i with
        | zero =>
            simp at h
            rw [h.symm]
            simp only [List.length_cons, Nat.sub_zero]
            rw [addRowNumbers_filter_length m rest, hm]
            exact Nat.add_comm 1 _
        | succ j =>
            simp only [List.getElem?_cons_succ] at h
            rw [ih j x h]
            have hlen : j < ((addRowNumbers rest).filter
                (fun r => decide (r.Measure = m))).length := by
              by_contra hc
              rw [List.getElem?_eq_none (by omega)] at h
              simp at h
            simp only [List.length_cons]
            omega
      · have hfil : (addRowNumbers (r :: rest)).filter (fun r => decide (r.Measure = m)) =
            (addRowNumbers rest).filter (fun r => decide (r.Measure = m)) := by
          simp [addRowNumbers, List.filter, hm]
        rw [hfil] at h
        rw [hfil]
        exact ih i x h

theorem aggregate_ok {df : List DecRow} {sel : DecRow → String} {frequency : String}
    {out : List NRow} (h : aggregate_dataframe df sel frequency = .ok out) :
    ∃ sorted,
      sort_by_date ((groupKeys df sel).map (aggRowOf df sel frequency)) frequency =
        .ok sorted ∧ out = addRowNumbers sorted := by
  simp only [aggregate_dataframe] at h
  cases hs : sort_by_date ((groupKeys df sel).map (aggRowOf df sel frequency)) frequency with
  | error e => rw [hs] at h; simp at h
  | ok sorted =>
      rw [hs] at h
      simp at h
      exact ⟨sorted, rfl, h.symm⟩

/-- The consequence of claim C5 about a table produced by the Temporal
Aggregator: per Measure, RowNumber is the 1-based descending rank of the
row position (the chronologically ascending order), there is exactly one
row carrying RowNumber 1 when the Measure is present, and the last row of
the Measure carries RowNumber 1 with a maximal chronological key. -/
def rankProp (out : List NRow) (frequency : String) : Prop :=
  ∀ m : String,
    (∀ (i : Nat) (x : NRow),
        (out.filter (fun r => decide (r.Measure = m)))[i]? = some x →
        x.RowNumber = (out.filter (fun r => decide (r.Measure = m))).length - i) ∧
    ((out.filter (fun r => decide (r.Measure = m))) ≠ [] →
      ∃! x, x ∈ out.filter (fun r => decide (r.Measure = m)) ∧ x.RowNumber = 1) ∧
    (∀ last, (out.filter (fun r => decide (r.Measure = m))).getLast? = some last →
      last.RowNumber = 1 ∧
      ∀ x ∈ out.filter (fun r => decide (r.Measure = m)),
        dateKeyD frequency x.Date ≤ dateKeyD frequency last.Date)

theorem rankProp_addRowNumbers (frequency : String) (sorted : List AggRow)
    (hpw : sorted.Pairwise (rowLE frequency)) :
    rankProp (addRowNumbers sorted) frequency := by
  intro m
  have hrank := addRowNumbers_rank m sorted
  refine ⟨hrank, ?_, ?_⟩
  · intro hne
    have hlen : 0 < ((addRowNumbers sorted).filter
        (fun r => decide (r.Measure = m))).length := List.length_pos.mpr hne
    have hlast : ((addRowNumbers sorted).filter
        (fun r => decide (r.Measure = m)))[((addRowNumbers sorted).filter
        (fun r => decide (r.Measure = m))).length - 1]? ≠ none := by
      intro hnone
      rw [List.getElem?_eq_none_iff] at hnone
      omega
    cases hl : ((addRowNumbers sorted).filter
        (fun r => decide (r.Measure = m)))[((addRowNumbers sorted).filter
        (fun r => decide (r.Measure = m))).length - 1]? with
    | none => exact absurd hl hlast
    | some last =>
        refine ⟨last, ⟨?_, ?_⟩, ?_⟩
        · exact List.mem_iff_getElem?.mpr ⟨_, hl⟩
        · rw [hrank _ last hl]; omega
        · intro y hy
          obtain ⟨i, hyi⟩ := List.mem_iff_getElem?.mp hy.1
          have hi : i < ((addRowNumbers sorted).filter
              (fun r => decide (r.Measure = m))).length :=
            (List.getElem?_eq_some.mp hyi).1
          have := hrank i y hyi
          rw [hy.2] at this
          have hieq : i = ((addRowNumbers sorted).filter
              (fun r => decide (r.Measure = m))).length - 1 := by omega
          rw [hieq] at hyi
          rw [hl] at hyi
          exact (Option.some_inj.mp hyi).symm
  · intro last hlast
    have hlast2 := hlast
    rw [List.getLast?_eq_getElem?] at hlast2
    have hlen : 0 < ((addRowNumbers sorted).filter
        (fun r => decide (r.Measure = m))).length := by
      by_contra hc
      rw [List.getElem?_eq_none (by omega)] at hlast2
      simp at hlast2
    constructor
    · rw [hrank _ last hlast2]; omega
    · have hmap := addRowNumbers_map sorted
      have hpw2 : (addRowNumbers sorted).Pairwise
          (fun a b => rowLE frequency a.toAggRow b.toAggRow) := by
        rw [hmap.symm] at hpw
        exact List.pairwise_map.mp hpw
      have hpwg : ((addRowNumbers sorted).filter
          (fun r => decide (r.Measure = m))).Pairwise
          (fun a b => dateKeyD frequency a.Date ≤ dateKeyD frequency b.Date) := by
        have hsub := List.filter_sublist (p := fun r => decide (r.Measure = m))
          (addRowNumbers sorted)
        have hgp := hpw2.sublist hsub
        apply hgp.imp_of_mem
        intro a b ha hb hab
        have ham : a.Measure = m := by
          have := (List.mem_filter.mp ha).2
          simpa using this
        have hbm : b.Measure = m := by
          have := (List.mem_filter.mp hb).2
          simpa using this
        simp only [rowLE] at hab
        rcases (Prod.Lex.le_iff _ _).mp hab with hlt | ⟨_, hle⟩
        · rw [ham, hbm] at hlt
          exact absurd hlt (lt_irrefl m)
        · exact hle
      exact pairwise_getLast
        (fun a b => dateKeyD frequency a.Date ≤ dateKeyD frequency b.Date)
        (fun a => le_refl _) _ last hlast hpwg

/-- C5: For every aggregated table, the Temporal Aggregator assigns
RowNumber as a 1-based rank in descending chronological order within each
Measure category, so that in each category exactly one row has RowNumber
1, and that row is the chronologically last period of the category. -/
theorem C5_rownumber_rank {df : List DecRow} {sel : DecRow → String}
    {frequency : String} {out : List NRow}
    (h : aggregate_dataframe df sel frequency = .ok out) :
    rankProp out frequency := by
  obtain ⟨sorted, hs, hout⟩ := aggregate_ok h
  obtain ⟨_, hpw, _⟩ := sort_by_date_ok hs
  rw [hout]
  exact rankProp_addRowNumbers frequency sorted hpw

/-- Witness for C5 on the concrete table exRaw aggregated monthly. -/
theorem C5_rownumber_rank_witness :
    aggregate_dataframe (AddDateColumns exRaw) (fun r => r.Month) "Month" = .ok exAggM ∧
      rankProp exAggM "Month" :=
  ⟨by rfl,
   @C5_rownumber_rank (AddDateColumns exRaw) (fun r => r.Month) "Month" exAggM (by rfl)⟩

/-- C8: For every input table and window size, the Rolling SPC Engine's
output is identical for any two values of the sigma parameter; the
parameter is accepted and read nowhere, so all three band pairs are
always produced regardless of it. -/
theorem C8_sigma_no_effect (df : List NRow) (W : Nat) (s1 s2 : ℚ) :
    rolling_spc_agg df W s1 = rolling_spc_agg df W s2 := rfl

theorem sampleVar_nonneg (W : Nat) (qs : List ℚ) (hW : 2 ≤ W) : 0 ≤ sampleVar W qs := by
  unfold sampleVar
  apply div_nonneg
  · apply List.sum_nonneg
    intro x hx
    simp only [List.mem_map] at hx
    obtain ⟨q, _, hq⟩ := hx
    rw [hq.symm]
    exact sq_nonneg _
  · have h2 : (2 : ℚ) ≤ (W : ℚ) := by exact_mod_cast hW
    linarith

theorem negB_iff (a b v : ℚ) (hv : 0 ≤ v) :
    SVal.negB a b v = true ↔ (a : ℝ) + (b : ℝ) * Real.sqrt (v : ℝ) < 0 := by
  have hv2 : (0 : ℝ) ≤ (v : ℝ) := by exact_mod_cast hv
  have hs : (0 : ℝ) ≤ Real.sqrt (v : ℝ) := Real.sqrt_nonneg _
  have hss : Real.sqrt (v : ℝ) * Real.sqrt (v : ℝ) = (v : ℝ) := Real.mul_self_sqrt hv2
  unfold SVal.negB
  split_ifs with h1 h2 h3
  · simp only [true_iff]
    have ha : (a : ℝ) < 0 := by exact_mod_cast h1
    have hb : (b : ℝ) ≤ 0 := by exact_mod_cast h2
    have := mul_nonpos_of_nonpos_of_nonneg hb hs
    linarith
  · rw [decide_eq_true_eq]
    have ha : (a : ℝ) < 0 := by exact_mod_cast h1
    have hb : (0 : ℝ) < (b : ℝ) := by
      have := lt_of_not_le h2
      exact_mod_cast this
    constructor
    · intro hlt
      have hlt2 : (b : ℝ) * (b : ℝ) * (v : ℝ) < (a : ℝ) * (a : ℝ) := by exact_mod_cast hlt
      by_contra hc
      push_neg at hc
      have hbs : -(a : ℝ) ≤ (b : ℝ) * Real.sqrt (v : ℝ) := by linarith
      have hna : (0 : ℝ) ≤ -(a : ℝ) := by linarith
      have := mul_le_mul hbs hbs hna (by linarith)
      nlinarith
    · intro hlt
      have hbs : (0 : ℝ) ≤ (b : ℝ) * Real.sqrt (v : ℝ) := mul_nonneg (le_of_lt hb) hs
      have h1' : (b : ℝ) * Real.sqrt (v : ℝ) < -(a : ℝ) := by linarith
      have := mul_self_lt_mul_self hbs h1'
      have hfin : (b : ℝ) * (b : ℝ) * (v : ℝ) < (a : ℝ) * (a : ℝ) := by nlinarith
      exact_mod_cast hfin
  · rw [decide_eq_true_eq]
    have ha : (0 : ℝ) ≤ (a : ℝ) := by
      have := le_of_not_lt h1
      exact_mod_cast this
    have hb : (b : ℝ) < 0 := by exact_mod_cast h3
    constructor
    · intro hlt
      have hlt2 : (a : ℝ) * (a : ℝ) < (b : ℝ) * (b : ℝ) * (v : ℝ) := by exact_mod_cast hlt
      by_contra hc
      push_neg at hc
      have hbs : (0 : ℝ) ≤ -((b : ℝ) * Real.sqrt (v : ℝ)) := by nlinarith
      have hle : -((b : ℝ) * Real.sqrt (v : ℝ)) ≤ (a : ℝ) := by linarith
      have := mul_le_mul hle hle hbs ha
      nlinarith
    · intro hlt
      have hbs : (0 : ℝ) ≤ -((b : ℝ) * Real.sqrt (v : ℝ)) := by nlinarith
      have h1' : (a : ℝ) < -((b : ℝ) * Real.sqrt (v : ℝ)) := by linarith
      have := mul_self_lt_mul_self ha h1'
      have hfin : (a : ℝ) * (a : ℝ) < (b : ℝ) * (b : ℝ) * (v : ℝ) := by nlinarith
      exact_mod_cast hfin
  · simp only [false_iff, not_lt]
    have ha : (0 : ℝ) ≤ (a : ℝ) := by
      have := le_of_not_lt h1
      exact_mod_cast this
    have hb : (0 : ℝ) ≤ (b : ℝ) := by
      have := le_of_not_lt h3
      exact_mod_cast this
    have := mul_nonneg (mul_nonneg hb (le_refl _)) hs
    nlinarith

/-- Non-negativity of a clipped lower control limit as claim C4 states it:
the value is never negative infinity, and a finite value is a nonnegative
real number. -/
def lclNonneg (x : SVal) : Prop :=
  x ≠ SVal.ninf ∧ ∀ a b v, x = SVal.fin a b v → 0 ≤ SVal.val (SVal.fin a b v)

/-- The max(0, CL - k std) reading of the clip: wherever the unclipped
difference is a finite value, the stored lower limit denotes exactly the
maximum of 0 and that value. -/
def maxClip (cl std l : SVal) (k : ℚ) : Prop :=
  ∀ a b v, SVal.sub cl (SVal.smul k std) = SVal.fin a b v →
    SVal.val l = max 0 (SVal.val (SVal.fin a b v))

/-- All C4 facts about one output row: the six band equations as the code
computes them, non-negativity of the three lower limits, and the
max(0, CL - k std) reading of each lower limit. -/
def C4Prop (r : SpcRow) : Prop :=
  (r.Rolling_UCL_1STD = SVal.add r.Rolling_CL (SVal.smul 1 r.Rolling_Std) ∧
   r.Rolling_LCL_1STD = SVal.clip0 (SVal.sub r.Rolling_CL (SVal.smul 1 r.Rolling_Std)) ∧
   r.Rolling_UCL_2STD = SVal.add r.Rolling_CL (SVal.smul 2 r.Rolling_Std) ∧
   r.Rolling_LCL_2STD = SVal.clip0 (SVal.sub r.Rolling_CL (SVal.smul 2 r.Rolling_Std)) ∧
   r.Rolling_UCL_3STD = SVal.add r.Rolling_CL (SVal.smul 3 r.Rolling_Std) ∧
   r.Rolling_LCL_3STD = SVal.clip0 (SVal.sub r.Rolling_CL (SVal.smul 3 r.Rolling_Std))) ∧
  (lclNonneg r.Rolling_LCL_1STD ∧ lclNonneg r.Rolling_LCL_2STD ∧
   lclNonneg r.Rolling_LCL_3STD) ∧
  (maxClip r.Rolling_CL r.Rolling_Std r.Rolling_LCL_1STD 1 ∧
   maxClip r.Rolling_CL r.Rolling_Std r.Rolling_LCL_2STD 2 ∧
   maxClip r.Rolling_CL r.Rolling_Std r.Rolling_LCL_3STD 3)

theorem val_fin_zero : SVal.val (SVal.fin 0 0 0) = 0 := by
  simp [SVal.val]

theorem clip0_lclNonneg (x : SVal) (hx : ∀ a b v, x = SVal.fin a b v → 0 ≤ v) :
    lclNonneg (SVal.clip0 x) := by
  unfold lclNonneg
  cases x with
  | fin a b v =>
      have hv := hx a b v rfl
      simp only [SVal.clip0]
      by_cases hn : SVal.negB a b v = true
      · rw [if_pos hn]
        constructor
        · intro hc; cases hc
        · intro a2 b2 v2 he
          cases he
          rw [val_fin_zero]
      · rw [if_neg hn]
        constructor
        · intro hc; cases hc
        · intro a2 b2 v2 he
          cases he
          rw [negB_iff a b v hv] at hn
          rw [not_lt] at hn
          simp only [SVal.val]
          exact hn
  | nan => simp [SVal.clip0]
  | inf => simp [SVal.clip0]
  | ninf =>
      simp only [SVal.clip0]
      constructor
      · intro hc; cases hc
      · intro a b v he
        cases he
        rw [val_fin_zero]

theorem clip0_maxClip (x : SVal)
    (hx : ∀ a b v, x = SVal.fin a b v → 0 ≤ v) :
    ∀ a b v, x = SVal.fin a b v →
      SVal.val (SVal.clip0 x) = max 0 (SVal.val (SVal.fin a b v)) := by
  intro a b v he
  subst he
  have hv := hx a b v rfl
  simp only [SVal.clip0]
  by_cases hn : SVal.negB a b v = true
  · rw [if_pos hn, val_fin_zero]
    have hlt := (negB_iff a b v hv).mp hn
    have : SVal.val (SVal.fin a b v) < 0 := by simp only [SVal.val]; exact hlt
    rw [max_eq_left (le_of_lt this)]
  · rw [if_neg hn]
    rw [negB_iff a b v hv] at hn
    rw [not_lt] at hn
    have : 0 ≤ SVal.val (SVal.fin a b v) := by simp only [SVal.val]; exact hn
    rw [max_eq_right this]

theorem rollMeanStd_cases (W : Nat) (win : List PFloat) :
    rollMeanStd W win = (SVal.nan, SVal.nan) ∨
    rollMeanStd W win = (SVal.inf, SVal.nan) ∨
    rollMeanStd W win = (SVal.ninf, SVal.nan) ∨
    (∃ m, rollMeanStd W win = (SVal.fin m 0 0, SVal.nan)) ∨
    (∃ m v, 0 ≤ v ∧ rollMeanStd W win = (SVal.fin m 0 v, SVal.fin 0 1 v)) := by
  unfold rollMeanStd
  split_ifs with h1 h2 h3 h4 h5
  · exact Or.inl rfl
  · exact Or.inl rfl
  · exact Or.inr (Or.inl rfl)
  · exact Or.inr (Or.inr (Or.inl rfl))
  · exact Or.inr (Or.inr (Or.inr (Or.inl ⟨_, rfl⟩)))
  · refine Or.inr (Or.inr (Or.inr (Or.inr ⟨_, _, ?_, rfl⟩)))
    exact sampleVar_nonneg W _ (by omega)

theorem spcOfWindow_C4 (W : Nat) (win : List PFloat) (r : SpcRow)
    (hcl : r.Rolling_CL = (spcOfWindow W win).cl)
    (hstd : r.Rolling_Std = (spcOfWindow W win).std)
    (hu1 : r.Rolling_UCL_1STD = (spcOfWindow W win).u1)
    (hl1 : r.Rolling_LCL_1STD = (spcOfWindow W win).l1)
    (hu2 : r.Rolling_UCL_2STD = (spcOfWindow W win).u2)
    (hl2 : r.Rolling_LCL_2STD = (spcOfWindow W win).l2)
    (hu3 : r.Rolling_UCL_3STD = (spcOfWindow W win).u3)
    (hl3 : r.Rolling_LCL_3STD = (spcOfWindow W win).l3) :
    C4Prop r := by
  have hsub : ∀ k : ℚ,
      ∀ a b v, SVal.sub (spcOfWindow W win).cl (SVal.smul k (spcOfWindow W win).std) =
        SVal.fin a b v → 0 ≤ v := by
    intro k a b v he
    rcases rollMeanStd_cases W win with hc | hc | hc | ⟨m, hc⟩ | ⟨m, vv, hvv, hc⟩ <;>
      simp only [spcOfWindow, hc] at he
    · cases he
    · cases he
    · cases he
    · cases he
    · simp only [SVal.smul, SVal.sub, SVal.add, if_true] at he
      cases he
      exact hvv
  refine ⟨⟨?_, ?_, ?_, ?_, ?_, ?_⟩, ⟨?_, ?_, ?_⟩, ⟨?_, ?_, ?_⟩⟩
  · rw [hu1, hcl, hstd]; rfl
  · rw [hl1, hcl, hstd]; rfl
  · rw [hu2, hcl, hstd]; rfl
  · rw [hl2, hcl, hstd]; rfl
  · rw [hu3, hcl, hstd]; rfl
  · rw [hl3, hcl, hstd]; rfl
  · rw [hl1]
    exact clip0_lclNonneg _ (hsub 1)
  · rw [hl2]
    exact clip0_lclNonneg _ (hsub 2)
  · rw [hl3]
    exact clip0_lclNonneg _ (hsub 3)
  · rw [hl1, hcl, hstd]
    intro a b v he
    exact clip0_maxClip _ (hsub 1) a b v he
  · rw [hl2, hcl, hstd]
    intro a b v he
    exact clip0_maxClip _ (hsub 2) a b v he
  · rw [hl3, hcl, hstd]
    intro a b v he
    exact clip0_maxClip _ (hsub 3) a b v he

theorem mapIdxFrom_getElem? {A B : Type} (f : Nat → A → B) :
    ∀ (n : Nat) (l : List A) (i : Nat),
      (mapIdxFrom f n l)[i]? = (l[i]?).map (f (n + i)) := by
  intro n l
  induction l generalizing n with
  | nil => intro i; simp [mapIdxFrom]
  | cons x xs ih =>
      intro i
      cases i with
      | zero => simp [mapIdxFrom]
      | succ j =>
          simp only [mapIdxFrom, List.getElem?_cons_succ]
          rw [ih (n + 1) j]
          have : n + 1 + j = n + (j + 1) := by omega
          rw [this]

theorem mapIdxFrom_length {A B : Type} (f : Nat → A → B) :
    ∀ (n : Nat) (l : List A), (mapIdxFrom f n l).length = l.length := by
  intro n l
  induction l generalizing n with
  | nil => rfl
  | cons x xs ih => simp [mapIdxFrom, ih]

theorem rolling_mem_shape {df : List NRow} {W : Nat} {s : ℚ} :
    ∀ r ∈ rolling_spc_agg df W s,
      (∃ r0 : SpcRow, r = nullSpc r0) ∨
      (∃ win,
        r.Rolling_CL = (spcOfWindow W win).cl ∧
        r.Rolling_Std = (spcOfWindow W win).std ∧
        r.Rolling_UCL_1STD = (spcOfWindow W win).u1 ∧
        r.Rolling_LCL_1STD = (spcOfWindow W win).l1 ∧
        r.Rolling_UCL_2STD = (spcOfWindow W win).u2 ∧
        r.Rolling_LCL_2STD = (spcOfWindow W win).l2 ∧
        r.Rolling_UCL_3STD = (spcOfWindow W win).u3 ∧
        r.Rolling_LCL_3STD = (spcOfWindow W win).l3) := by
  intro r hr
  simp only [rolling_spc_agg, List.mem_map] at hr
  obtain ⟨r0, hr0, hmask⟩ := hr
  simp only [List.mem_flatten, List.mem_map] at hr0
  obtain ⟨L, ⟨m, _, hL⟩, hr0L⟩ := hr0
  rw [hL.symm] at hr0L
  simp only [rolling_spc_measure] at hr0L
  obtain ⟨i, hi⟩ := List.mem_iff_getElem?.mp hr0L
  rw [mapIdxFrom_getElem?] at hi
  cases hx : (df.filter (fun r => decide (r.Measure = m)))[i]? with
  | none => rw [hx] at hi; simp at hi
  | some x =>
      rw [hx] at hi
      rw [Option.map_some'] at hi
      injection hi with hi2
      simp only [Nat.zero_add] at hi2
      by_cases hy : r0.frequency = "Year"
      · rw [if_pos hy] at hmask
        exact Or.inl ⟨r0, hmask.symm⟩
      · rw [if_neg hy] at hmask
        obtain rfl := hi2
        refine Or.inr ⟨windowAt ((df.filter (fun r => decide (r.Measure = m))).map
          (fun r => r.Rate)) W i, ?_⟩
        rw [hmask.symm]
        exact ⟨rfl, rfl, rfl, rfl, rfl, rfl, rfl, rfl⟩

/-- C4: For every row produced by the Rolling SPC Engine and every k in
1, 2, 3, the upper band is Rolling_CL + k Rolling_Std and the lower band
is the zero-clipped Rolling_CL - k Rolling_Std, which denotes
max(0, Rolling_CL - k Rolling_Std) wherever that difference is a finite
value; hence no lower band is ever negative. -/
theorem C4_bands (df : List NRow) (W : Nat) (s : ℚ) :
    ∀ r ∈ rolling_spc_agg df W s, C4Prop r := by
  intro r hr
  rcases rolling_mem_shape r hr with ⟨r0, hnull⟩ | ⟨win, h1, h2, h3, h4, h5, h6, h7, h8⟩
  · subst hnull
    simp only [C4Prop, nullSpc, lclNonneg, maxClip]
    refine ⟨⟨rfl, rfl, rfl, rfl, rfl, rfl⟩, ⟨?_, ?_, ?_⟩, ⟨?_, ?_, ?_⟩⟩
    · exact ⟨(fun hc => nomatch hc), (fun a b v he => nomatch he)⟩
    · exact ⟨(fun hc => nomatch hc), (fun a b v he => nomatch he)⟩
    · exact ⟨(fun hc => nomatch hc), (fun a b v he => nomatch he)⟩
    · exact fun a b v he => nomatch he
    · exact fun a b v he => nomatch he
    · exact fun a b v he => nomatch he
  · exact spcOfWindow_C4 W win r h1 h2 h3 h4 h5 h6 h7 h8

/-- A default SPC row used only to take heads of concrete lists. -/
def dummySpc : SpcRow :=
  { toNRow := mkMonthRow PFloat.nan "none" 0
    Rolling_CL := SVal.nan
    Rolling_Std := SVal.nan
    Rolling_UCL_1STD := SVal.nan
    Rolling_LCL_1STD := SVal.nan
    Rolling_UCL_2STD := SVal.nan
    Rolling_LCL_2STD := SVal.nan
    Rolling_UCL_3STD := SVal.nan
    Rolling_LCL_3STD := SVal.nan }

/-- The fourth output row of the scenario table under window 3: the first
row with a full window. -/
def exC4row : SpcRow := ((rolling_spc_agg exSix 3 3).drop 3).headD dummySpc

/-- Witness for C4 at a concrete output row of the scenario table. -/
theorem C4_bands_witness :
    exC4row ∈ rolling_spc_agg exSix 3 3 ∧ C4Prop exC4row :=
  ⟨by with_unfolding_all decide,
   C4_bands exSix 3 3 exC4row (by with_unfolding_all decide)⟩

theorem mem_mapIdxFrom {A B : Type} (f : Nat → A → B) (n : Nat) (l : List A) (y : B)
    (h : y ∈ mapIdxFrom f n l) : ∃ i x, l[i]? = some x ∧ y = f (n + i) x := by
  obtain ⟨i, hi⟩ := List.mem_iff_getElem?.mp h
  rw [mapIdxFrom_getElem?] at hi
  cases hx : l[i]? with
  | none => rw [hx] at hi; simp at hi
  | some x =>
      rw [hx] at hi
      rw [Option.map_some'] at hi
      injection hi with hi2
      exact ⟨i, x, hx, hi2.symm⟩

theorem rsm_measure (W : Nat) (g : List NRow) (c : String)
    (hg : ∀ r ∈ g, r.Measure = c) : ∀ r2 ∈ rolling_spc_measure W g, r2.Measure = c := by
  intro r2 hr2
  simp only [rolling_spc_measure] at hr2
  obtain ⟨i, x, hx, hy⟩ := mem_mapIdxFrom _ _ _ _ hr2
  have hxm : x ∈ g := List.mem_iff_getElem?.mpr ⟨i, hx⟩
  rw [hy]
  exact hg x hxm

theorem measuresOf_nodup (rows : List NRow) : (measuresOf rows).Nodup := by
  unfold measuresOf
  exact ((List.perm_insertionSort _ _).symm).nodup (List.nodup_dedup _)

theorem mem_measuresOf {rows : List NRow} {m : String} :
    m ∈ measuresOf rows ↔ ∃ r ∈ rows, r.Measure = m := by
  unfold measuresOf
  rw [(List.perm_insertionSort _ _).mem_iff, List.mem_dedup, List.mem_map]

theorem flatten_select (F : String → List SpcRow) :
    ∀ (ms : List String), ms.Nodup →
      (∀ c ∈ ms, ∀ r ∈ F c, r.Measure = c) →
      ∀ m, ((ms.map F).flatten.filter (fun r => decide (r.Measure = m))) =
        if m ∈ ms then F m else [] := by
  intro ms
  induction ms with
  | nil => intro _ _ m; simp
  | cons c cs ih =>
      intro hnd hF m
      have hndtail := (List.nodup_cons.mp hnd).2
      have hnotmem := (List.nodup_cons.mp hnd).1
      simp only [List.map_cons, List.flatten_cons, List.filter_append]
      by_cases hm : m = c
      · subst hm
        have h1 : (F m).filter (fun r => decide (r.Measure = m)) = F m := by
          apply List.filter_eq_self.mpr
          intro r hr
          simp [hF m (List.mem_cons_self _ _) r hr]
        have h2 : ((cs.map F).flatten.filter (fun r => decide (r.Measure = m))) = [] := by
          rw [ih hndtail (fun c2 hc2 => hF c2 (List.mem_cons_of_mem _ hc2)) m]
          rw [if_neg hnotmem]
        rw [h1, h2, List.append_nil, if_pos (List.mem_cons_self _ _)]
      · have h1 : (F c).filter (fun r => decide (r.Measure = m)) = [] := by
          apply List.filter_eq_nil_iff.mpr
          intro r hr
          simp only [decide_eq_true_eq]
          rw [hF c (List.mem_cons_self _ _) r hr]
          exact fun hc => hm hc.symm
        rw [h1, List.nil_append]
        rw [ih hndtail (fun c2 hc2 => hF c2 (List.mem_cons_of_mem _ hc2)) m]
        by_cases hmem : m ∈ cs
        · rw [if_pos hmem, if_pos (List.mem_cons_of_mem _ hmem)]
        · rw [if_neg hmem, if_neg (by
            intro hc
            cases hc with
            | head => exact hm rfl
            | tail _ h2 => exact hmem h2)]

theorem rolling_filter_eq (df : List NRow) (W : Nat) (s : ℚ) (m : String) :
    (rolling_spc_agg df W s).filter (fun r => decide (r.Measure = m)) =
      (rolling_spc_measure W (df.filter (fun r => decide (r.Measure = m)))).map
        (fun r => if r.frequency = "Year" then nullSpc r else r) := by
  have hmask : ∀ r : SpcRow,
      ((if r.frequency = "Year" then nullSpc r else r).Measure) = r.Measure := by
    intro r
    by_cases hy : r.frequency = "Year"
    · rw [if_pos hy]; rfl
    · rw [if_neg hy]
  unfold rolling_spc_agg
  rw [List.filter_map]
  have hcong : (fun r : SpcRow => decide (r.Measure = m)) ∘
      (fun r => if r.frequency = "Year" then nullSpc r else r) =
      (fun r : SpcRow => decide (r.Measure = m)) := by
    funext r
    simp only [Function.comp]
    rw [hmask r]
  rw [hcong]
  rw [flatten_select _ (measuresOf df) (measuresOf_nodup df)
    (fun c hc r hr => rsm_measure W _ c
      (fun r2 hr2 => by
        have := (List.mem_filter.mp hr2).2
        simpa using this) r hr) m]
  by_cases hmem : m ∈ measuresOf df
  · rw [if_pos hmem]
  · rw [if_neg hmem]
    have hempty : df.filter (fun r => decide (r.Measure = m)) = [] := by
      apply List.filter_eq_nil_iff.mpr
      intro r hr
      simp only [decide_eq_true_eq]
      intro hc
      exact hmem (mem_measuresOf.mpr ⟨r, hr, hc⟩)
    rw [hempty]
    rfl

theorem windowAt_length (rates : List PFloat) (W i : Nat) (h : i ≤ rates.length) :
    (windowAt rates W i).length = min W i := by
  simp only [windowAt, List.length_drop, List.length_take]
  omega

theorem windowAt_subset (rates : List PFloat) (W i : Nat) :
    ∀ x ∈ windowAt rates W i, x ∈ rates := by
  intro x hx
  simp only [windowAt] at hx
  exact List.mem_of_mem_take (List.mem_of_mem_drop hx)

theorem rollMeanStd_short (W : Nat) (win : List PFloat) (h : win.length < W) :
    rollMeanStd W win = (SVal.nan, SVal.nan) := by
  unfold rollMeanStd
  rw [if_pos (Or.inl h)]

theorem rollMeanStd_finite (W : Nat) (win : List PFloat)
    (hlen : ¬ win.length < W) (hfin : ∀ x ∈ win, x.isFinite = true) (hW : 2 ≤ W) :
    rollMeanStd W win =
      (SVal.fin (listMean W (win.map PFloat.toQ)) 0 (sampleVar W (win.map PFloat.toQ)),
       SVal.fin 0 1 (sampleVar W (win.map PFloat.toQ))) := by
  have hnan : win.any PFloat.isNan = false := by
    rw [Bool.eq_false_iff]
    intro hc
    rw [List.any_eq_true] at hc
    obtain ⟨x, hx, hxn⟩ := hc
    have := hfin x hx
    cases x <;> simp [PFloat.isNan, PFloat.isFinite] at *
  have hinf : PFloat.inf ∉ win := by
    intro hc
    have := hfin _ hc
    simp [PFloat.isFinite] at this
  have hninf : PFloat.ninf ∉ win := by
    intro hc
    have := hfin _ hc
    simp [PFloat.isFinite] at this
  unfold rollMeanStd
  rw [if_neg (by
    intro hc
    cases hc with
    | inl h2 => exact hlen h2
    | inr h2 => rw [hnan] at h2; cases h2)]
  rw [if_neg (fun hc => hinf hc.1), if_neg hinf, if_neg hninf,
    if_neg (by omega : ¬ W ≤ 1)]

theorem rollMeanStd_nonfinite (W : Nat) (win : List PFloat)
    (hx : ∃ x ∈ win, x.isFinite = false) :
    (rollMeanStd W win).1.isFinite = false ∧ (rollMeanStd W win).2 = SVal.nan := by
  unfold rollMeanStd
  by_cases h1 : win.length < W ∨ win.any PFloat.isNan
  · rw [if_pos h1]
    exact ⟨rfl, rfl⟩
  · rw [if_neg h1]
    have hnonan : ∀ x ∈ win, x ≠ PFloat.nan := by
      intro x hx2 hc
      apply h1
      right
      rw [List.any_eq_true]
      exact ⟨x, hx2, by rw [hc]; rfl⟩
    obtain ⟨x, hxw, hxf⟩ := hx
    have hx3 : x = PFloat.inf ∨ x = PFloat.ninf := by
      cases x with
      | fin q => simp [PFloat.isFinite] at hxf
      | nan => exact absurd rfl (hnonan _ hxw)
      | inf => exact Or.inl rfl
      | ninf => exact Or.inr rfl
    by_cases h2 : PFloat.inf ∈ win ∧ PFloat.ninf ∈ win
    · rw [if_pos h2]
      exact ⟨rfl, rfl⟩
    · rw [if_neg h2]
      by_cases h3 : PFloat.inf ∈ win
      · rw [if_pos h3]
        exact ⟨rfl, rfl⟩
      · rw [if_neg h3]
        have h4 : PFloat.ninf ∈ win := by
          cases hx3 with
          | inl he => rw [he] at hxw; exact absurd hxw h3
          | inr he => rw [he] at hxw; exact hxw
        rw [if_pos h4]
        exact ⟨rfl, rfl⟩

theorem rolling_elem (df : List NRow) (W : Nat) (s : ℚ) (m : String) (i : Nat)
    (ro : SpcRow) (ri : NRow)
    (ho : ((rolling_spc_agg df W s).filter (fun r => decide (r.Measure = m)))[i]? = some ro)
    (hi : (df.filter (fun r => decide (r.Measure = m)))[i]? = some ri) :
    ro = if ri.frequency = "Year"
      then nullSpc (mkSpc ri (spcOfWindow W
        (windowAt ((df.filter (fun r => decide (r.Measure = m))).map (fun r => r.Rate)) W i)))
      else mkSpc ri (spcOfWindow W
        (windowAt ((df.filter (fun r => decide (r.Measure = m))).map (fun r => r.Rate)) W i)) := by
  rw [rolling_filter_eq] at ho
  rw [List.getElem?_map] at ho
  simp only [rolling_spc_measure] at ho
  rw [mapIdxFrom_getElem?] at ho
  rw [hi] at ho
  rw [Option.map_some', Option.map_some'] at ho
  injection ho with ho2
  rw [ho2.symm]
  simp only [Nat.zero_add]
  rfl

/-- The rows of one Measure category, in input order. -/
def catRows (df : List NRow) (m : String) : List NRow :=
  df.filter (fun r => decide (r.Measure = m))

/-- The engine output rows of one Measure category, in output order. -/
def catOut (df : List NRow) (W : Nat) (s : ℚ) (m : String) : List SpcRow :=
  (rolling_spc_agg df W s).filter (fun r => decide (r.Measure = m))

/-- The closed-left window over the category's Rate column at position i. -/
def catWin (df : List NRow) (m : String) (W i : Nat) : List PFloat :=
  windowAt ((catRows df m).map (fun r => r.Rate)) W i

/-- All eight SPC columns of a row are NaN, pandas null. -/
def allSpcNan (r : SpcRow) : Prop :=
  r.Rolling_CL = SVal.nan ∧ r.Rolling_Std = SVal.nan ∧
  r.Rolling_UCL_1STD = SVal.nan ∧ r.Rolling_LCL_1STD = SVal.nan ∧
  r.Rolling_UCL_2STD = SVal.nan ∧ r.Rolling_LCL_2STD = SVal.nan ∧
  r.Rolling_UCL_3STD = SVal.nan ∧ r.Rolling_LCL_3STD = SVal.nan

theorem val_fin_b0 (a v : ℚ) : SVal.val (SVal.fin a 0 v) = (a : ℝ) := by
  simp [SVal.val]

theorem val_fin_sqrt (v : ℚ) : SVal.val (SVal.fin 0 1 v) = Real.sqrt ((v : ℚ) : ℝ) := by
  simp [SVal.val]

/-- The consequence of claim C1 (in its amended form): per category the
engine output aligns with the input rows; every row whose frequency is
Year has all SPC columns null; for the others, Rolling_CL and Rolling_Std
are null at exactly the positions with fewer than W preceding category
rows, and at every later position they hold the mean and the sample
standard deviation of the W rates strictly preceding the position. -/
def C1Prop (df : List NRow) (W : Nat) (s : ℚ) (m : String) : Prop :=
  (catOut df W s m).length = (catRows df m).length ∧
  ∀ (i : Nat) (ro : SpcRow) (ri : NRow),
    (catOut df W s m)[i]? = some ro → (catRows df m)[i]? = some ri →
    ro.toNRow = ri ∧
    (ri.frequency = "Year" → allSpcNan ro) ∧
    (ri.frequency ≠ "Year" →
      (i < W → ro.Rolling_CL = SVal.nan ∧ ro.Rolling_Std = SVal.nan) ∧
      (W ≤ i →
        (catWin df m W i).length = W ∧
        ro.Rolling_CL = SVal.fin (listMean W ((catWin df m W i).map PFloat.toQ)) 0
          (sampleVar W ((catWin df m W i).map PFloat.toQ)) ∧
        ro.Rolling_Std = SVal.fin 0 1 (sampleVar W ((catWin df m W i).map PFloat.toQ)) ∧
        SVal.val ro.Rolling_CL = ((listMean W ((catWin df m W i).map PFloat.toQ) : ℚ) : ℝ) ∧
        SVal.val ro.Rolling_Std =
          Real.sqrt ((sampleVar W ((catWin df m W i).map PFloat.toQ) : ℚ) : ℝ) ∧
        ro.Rolling_CL.isNan = false ∧ ro.Rolling_Std.isNan = false))

/-- C1 (amended): for a window size of at least two and a category whose
rates are all finite, the Rolling SPC Engine behaves exactly as claim C1
describes: null SPC values for exactly the first W positions of the
category, mean and sample standard deviation of the W strictly preceding
rates afterwards, and unconditionally null columns on Year-frequency
rows. -/
theorem C1_rolling_windows (df : List NRow) (W : Nat) (s : ℚ) (m : String)
    (hW : 2 ≤ W)
    (hfin : ∀ r ∈ df, r.Measure = m → (r.Rate).isFinite = true) :
    C1Prop df W s m := by
  constructor
  · simp only [catOut, catRows, rolling_filter_eq, rolling_spc_measure,
      List.length_map, mapIdxFrom_length]
  · intro i ro ri ho hi
    have ho2 : ((rolling_spc_agg df W s).filter
        (fun r => decide (r.Measure = m)))[i]? = some ro := ho
    have hi2 : (df.filter (fun r => decide (r.Measure = m)))[i]? = some ri := hi
    have hel := rolling_elem df W s m i ro ri ho2 hi2
    have hilen : i < (catRows df m).length := (List.getElem?_eq_some.mp hi).1
    have hrates : ((catRows df m).map (fun r => r.Rate)).length = (catRows df m).length :=
      List.length_map _ _
    have hwinsub : ∀ x ∈ catWin df m W i, x.isFinite = true := by
      intro x hx
      have hx2 := windowAt_subset _ W i x hx
      rw [List.mem_map] at hx2
      obtain ⟨r, hr, he⟩ := hx2
      have hrdf := List.mem_filter.mp hr
      rw [he.symm]
      exact hfin r hrdf.1 (by simpa using hrdf.2)
    by_cases hy : ri.frequency = "Year"
    · rw [if_pos hy] at hel
      subst hel
      refine ⟨rfl, fun _ => ?_, fun hc => absurd hy hc⟩
      exact ⟨rfl, rfl, rfl, rfl, rfl, rfl, rfl, rfl⟩
    · rw [if_neg hy] at hel
      subst hel
      refine ⟨rfl, fun hc => absurd hc hy, fun _ => ⟨?_, ?_⟩⟩
      · intro hiW
        have hlen : (catWin df m W i).length < W := by
          rw [catWin, windowAt_length _ _ _ (by omega)]
          omega
        have hshort := rollMeanStd_short W (catWin df m W i) hlen
        constructor
        · show (spcOfWindow W (catWin df m W i)).cl = SVal.nan
          simp only [spcOfWindow, hshort]
        · show (spcOfWindow W (catWin df m W i)).std = SVal.nan
          simp only [spcOfWindow, hshort]
      · intro hiW
        have hlen : (catWin df m W i).length = W := by
          rw [catWin, windowAt_length _ _ _ (by omega)]
          omega
        have hfull := rollMeanStd_finite W (catWin df m W i)
          (by omega) hwinsub hW
        refine ⟨hlen, ?_, ?_, ?_, ?_, ?_, ?_⟩
        · show (spcOfWindow W (catWin df m W i)).cl = _
          simp only [spcOfWindow, hfull]
        · show (spcOfWindow W (catWin df m W i)).std = _
          simp only [spcOfWindow, hfull]
        · show SVal.val (spcOfWindow W (catWin df m W i)).cl = _
          simp only [spcOfWindow, hfull]
          exact val_fin_b0 _ _
        · show SVal.val (spcOfWindow W (catWin df m W i)).std = _
          simp only [spcOfWindow, hfull]
          exact val_fin_sqrt _
        · show ((spcOfWindow W (catWin df m W i)).cl).isNan = false
          simp only [spcOfWindow, hfull]
          rfl
        · show ((spcOfWindow W (catWin df m W i)).std).isNan = false
          simp only [spcOfWindow, hfull]
          rfl

/-- Counterexample to C1 as stated.  First conjunct: in a chronologically
sorted Month-frequency category whose first Rate is NaN, the row at
position 2 has two strictly preceding rows (window size 2 satisfied), yet
its Rolling_CL and Rolling_Std are null, against the claim that the SPC
fields are non-null from row W+1 onward.  Second conjunct: with window
size 1 and all-finite rates, the row at position 1 has its window
satisfied yet Rolling_Std is null, because the sample standard deviation
of a single observation is 0 over 0. -/
theorem C1_counterexample :
    ((rolling_spc_agg exNanRate 2 3)[2]?).map
        (fun r => (r.frequency, r.Rolling_CL.isNan, r.Rolling_Std.isNan)) =
      some ("Month", true, true) ∧
    ((rolling_spc_agg exTwo 1 3)[1]?).map
        (fun r => (r.frequency, r.Rolling_CL, r.Rolling_Std.isNan)) =
      some ("Month", SVal.fin 1 0 0, true) := by
  with_unfolding_all decide

/-- Witness for the amended C1 on the six-month scenario table. -/
theorem C1_rolling_windows_witness :
    (2 ≤ 3 ∧ ∀ r ∈ exSix, r.Measure = "A" → (r.Rate).isFinite = true) ∧
      C1Prop exSix 3 3 "A" :=
  ⟨⟨by decide, by decide⟩, C1_rolling_windows exSix 3 3 "A" (by decide) (by decide)⟩

theorem rate_div0_nonfinite (num mult : ℚ) :
    (PFloat.mul (PFloat.div (PFloat.fin num) (PFloat.fin 0)) (PFloat.fin mult)).isFinite =
      false := by
  have hred : PFloat.div (PFloat.fin num) (PFloat.fin 0) =
      (if 0 < num then PFloat.inf else if num < 0 then PFloat.ninf else PFloat.nan) := by
    simp only [PFloat.div]
    rw [if_pos trivial]
  rw [hred]
  by_cases h1 : 0 < num
  · rw [if_pos h1]
    simp only [PFloat.mul]
    split_ifs <;> rfl
  · rw [if_neg h1]
    by_cases h2 : num < 0
    · rw [if_pos h2]
      simp only [PFloat.mul]
      split_ifs <;> rfl
    · rw [if_neg h2]
      rfl

theorem aggregate_rows_rate {df : List DecRow} {sel : DecRow → String}
    {frequency : String} {out : List NRow}
    (h : aggregate_dataframe df sel frequency = .ok out) :
    ∀ r ∈ out, r.Rate = PFloat.mul
      (PFloat.div (PFloat.fin (r.Numerator : ℚ)) (PFloat.fin (r.Denominator : ℚ)))
      (PFloat.fin (r.Multiplier : ℚ)) := by
  obtain ⟨sorted, hs, hout⟩ := aggregate_ok h
  obtain ⟨hperm, _, _⟩ := sort_by_date_ok hs
  intro r hr
  rw [hout] at hr
  have hmem : r.toAggRow ∈ sorted := by
    have := List.mem_map_of_mem (fun x : NRow => x.toAggRow) hr
    rw [addRowNumbers_map] at this
    exact this
  have hmem2 := hperm.mem_iff.mp hmem
  rw [List.mem_map] at hmem2
  obtain ⟨k, _, hk⟩ := hmem2
  have hfields : r.toAggRow.Rate = PFloat.mul
      (PFloat.div (PFloat.fin (r.toAggRow.Numerator : ℚ))
        (PFloat.fin (r.toAggRow.Denominator : ℚ)))
      (PFloat.fin (r.toAggRow.Multiplier : ℚ)) := by
    rw [hk.symm]
    rfl
  exact hfields

/-- The rolling part of the amended C7: per category (away from Year
rows), a window containing a non-finite rate yields a non-finite center
line and a null standard deviation at the window's row, while a row whose
window holds only finite rates (with enough history and window size at
least 2) keeps finite SPC values, whatever the row's own rate is. -/
def C7RollProp (df : List NRow) (W : Nat) (s : ℚ) (m : String) : Prop :=
  ∀ (i : Nat) (ro : SpcRow) (ri : NRow),
    (catOut df W s m)[i]? = some ro → (catRows df m)[i]? = some ri →
    ri.frequency ≠ "Year" →
    ((∃ x ∈ catWin df m W i, x.isFinite = false) →
      ro.Rolling_CL.isFinite = false ∧ ro.Rolling_Std = SVal.nan) ∧
    (W ≤ i → 2 ≤ W → (∀ x ∈ catWin df m W i, x.isFinite = true) →
      ro.Rolling_CL.isFinite = true ∧ ro.Rolling_Std.isFinite = true)

/-- C7 (amended): a grouped row with summed Denominator 0 gets a
non-finite Rate without raising, a non-finite rate makes the SPC fields
of the rows whose windows contain it non-finite, and rows whose windows
hold only finite rates keep finite SPC values — in particular the
zero-denominator row itself, whose closed-left window excludes its own
rate. -/
theorem C7_zero_denominator :
    (∀ (df : List DecRow) (sel : DecRow → String) (frequency : String)
        (out : List NRow),
      aggregate_dataframe df sel frequency = .ok out →
      ∀ r ∈ out, r.Denominator = 0 → (r.Rate).isFinite = false) ∧
    (∀ (df : List NRow) (W : Nat) (s : ℚ) (m : String), C7RollProp df W s m) := by
  constructor
  · intro df sel frequency out h r hr hden
    rw [aggregate_rows_rate h r hr, hden]
    have hc : ((0 : Int) : ℚ) = 0 := by norm_num
    rw [hc]
    exact rate_div0_nonfinite _ _
  · intro df W s m i ro ri ho hi hy
    have hel := rolling_elem df W s m i ro ri ho hi
    rw [if_neg hy] at hel
    subst hel
    have hilen : i < (catRows df m).length := (List.getElem?_eq_some.mp hi).1
    constructor
    · intro hex
      have hnf := rollMeanStd_nonfinite W (catWin df m W i) hex
      refine ⟨?_, ?_⟩
      · show ((spcOfWindow W (catWin df m W i)).cl).isFinite = false
        simp only [spcOfWindow]
        exact hnf.1
      · show (spcOfWindow W (catWin df m W i)).std = SVal.nan
        simp only [spcOfWindow]
        exact hnf.2
    · intro hiW hW hfin
      have hlen : (catWin df m W i).length = W := by
        rw [catWin, windowAt_length _ _ _ (by
          rw [List.length_map]
          omega)]
        omega
      have hfull := rollMeanStd_finite W (catWin df m W i) (by omega) hfin hW
      refine ⟨?_, ?_⟩
      · show ((spcOfWindow W (catWin df m W i)).cl).isFinite = true
        simp only [spcOfWindow, hfull]
        rfl
      · show ((spcOfWindow W (catWin df m W i)).std).isFinite = true
        simp only [spcOfWindow, hfull]
        rfl

/-- Counterexample to C7 as stated: in the month aggregation of exRaw the
row at position 2 has summed Denominator 0 and a non-finite Rate, yet its
own Rolling_CL (window size 2, rows 0 and 1 preceding it) is the finite
value 45/2: the zero-denominator row's own SPC fields do not become
non-finite, because the closed-left window excludes the row itself. -/
theorem C7_counterexample :
    aggregate_dataframe (AddDateColumns exRaw) (fun r => r.Month) "Month" = .ok exAggM ∧
    ((rolling_spc_agg exAggM 2 3)[2]?).map
        (fun r => (r.Denominator, (r.Rate).isFinite, r.Rolling_CL,
          (r.Rolling_CL).isFinite)) =
      some (0, false, SVal.fin (45 / 2) 0 (25 / 2), true) := by
  constructor
  · with_unfolding_all rfl
  · with_unfolding_all decide

/-- Witness for the amended C7 at the concrete table exRaw. -/
theorem C7_zero_denominator_witness :
    (aggregate_dataframe (AddDateColumns exRaw) (fun r => r.Month) "Month" = .ok exAggM ∧
      C7RollProp exAggM 2 3 "A") ∧
    (∀ r ∈ exAggM, r.Denominator = 0 → (r.Rate).isFinite = false) :=
  ⟨⟨by with_unfolding_all rfl, C7_zero_denominator.2 exAggM 2 3 "A"⟩,
   C7_zero_denominator.1 (AddDateColumns exRaw) (fun r => r.Month) "Month" exAggM
     (by with_unfolding_all rfl)⟩

theorem aggregate_frequency {df : List DecRow} {sel : DecRow → String}
    {frequency : String} {out : List NRow}
    (h : aggregate_dataframe df sel frequency = .ok out) :
    ∀ r ∈ out, r.frequency = frequency := by
  obtain ⟨sorted, hs, hout⟩ := aggregate_ok h
  obtain ⟨hperm, _, _⟩ := sort_by_date_ok hs
  intro r hr
  rw [hout] at hr
  have hmem : r.toAggRow ∈ sorted := by
    have := List.mem_map_of_mem (fun x : NRow => x.toAggRow) hr
    rw [addRowNumbers_map] at this
    exact this
  have hmem2 := hperm.mem_iff.mp hmem
  rw [List.mem_map] at hmem2
  obtain ⟨k, _, hk⟩ := hmem2
  have : r.toAggRow.frequency = frequency := by
    rw [hk.symm]
    rfl
  exact this

theorem rolling_frequency (df : List NRow) (W : Nat) (s : ℚ) (c : String)
    (hf : ∀ r ∈ df, r.frequency = c) :
    ∀ r ∈ rolling_spc_agg df W s, r.frequency = c := by
  intro r hr
  simp only [rolling_spc_agg, List.mem_map] at hr
  obtain ⟨r0, hr0, hmask⟩ := hr
  simp only [List.mem_flatten, List.mem_map] at hr0
  obtain ⟨L, ⟨m, _, hL⟩, hr0L⟩ := hr0
  rw [hL.symm] at hr0L
  simp only [rolling_spc_measure] at hr0L
  obtain ⟨i, x, hx, hy⟩ := mem_mapIdxFrom _ _ _ _ hr0L
  have hxm : x ∈ df := (List.mem_filter.mp (List.mem_iff_getElem?.mpr ⟨i, hx⟩)).1
  have hfr0 : r0.frequency = c := by
    rw [hy]
    exact hf x hxm
  rw [hmask.symm]
  by_cases hyy : r0.frequency = "Year"
  · rw [if_pos hyy]
    exact hfr0
  · rw [if_neg hyy]
    exact hfr0

theorem relabelChars_digits : ∀ l : List Char, l.all Char.isDigit = true →
    relabelChars l = l := by
  intro l
  induction l with
  | nil => intro _; rfl
  | cons c cs ih =>
      intro h
      rw [List.all_cons, Bool.and_eq_true] at h
      have hcd : c ≠ '-' := by
        intro hc
        rw [hc] at h
        cases h.1
      simp only [relabelChars]
      rw [if_neg (fun hc => hcd hc.1), ih h.2]

theorem relabelChars_insert (n : List Char) (hn : n.all Char.isDigit = true)
    (hn0 : n ≠ []) :
    ∀ y : List Char, y.all Char.isDigit = true →
      relabelChars (y ++ '-' :: n) = y ++ '-' :: 'Q' :: n := by
  have hhead : (n.headD 'x').isDigit = true := by
    cases n with
    | nil => exact absurd rfl hn0
    | cons c cs =>
        rw [List.all_cons, Bool.and_eq_true] at hn
        exact hn.1
  intro y
  induction y with
  | nil =>
      intro _
      simp only [List.nil_append, relabelChars]
      rw [if_pos ⟨trivial, hhead⟩, relabelChars_digits n hn]
  | cons c cs ih =>
      intro hy
      rw [List.all_cons, Bool.and_eq_true] at hy
      have hcd : c ≠ '-' := by
        intro hc
        rw [hc] at hy
        cases hy.1
      simp only [List.cons_append, relabelChars]
      rw [if_neg (fun hc => hcd hc.1)]
      simp only [List.append_eq]
      rw [ih hy.2]

theorem pipelineFinal_ok {raw : List RawRow} {out : List SpcRow}
    (h : pipelineFinal raw = .ok out) :
    ∃ aggY aggQ aggM,
      aggregate_dataframe (AddDateColumns raw) (fun r => r.Year) "Year" = .ok aggY ∧
      aggregate_dataframe (AddDateColumns raw) (fun r => r.Quarter) "Quarter" = .ok aggQ ∧
      aggregate_dataframe (AddDateColumns raw) (fun r => r.Month) "Month" = .ok aggM ∧
      out = rolling_spc_agg aggM 24 3 ++ quarterRelabel (rolling_spc_agg aggQ 8 3) ++
        rolling_spc_agg aggY 2 3 ∧
      (∀ r ∈ rolling_spc_agg aggQ 8 3, r.frequency = "Quarter") := by
  simp only [pipelineFinal] at h
  cases hY : aggregate_dataframe (AddDateColumns raw) (fun r => r.Year) "Year" with
  | error e => rw [hY] at h; simp at h
  | ok aggY =>
      rw [hY] at h
      cases hQ : aggregate_dataframe (AddDateColumns raw) (fun r => r.Quarter) "Quarter" with
      | error e => rw [hQ] at h; simp at h
      | ok aggQ =>
          rw [hQ] at h
          cases hM : aggregate_dataframe (AddDateColumns raw) (fun r => r.Month) "Month" with
          | error e => rw [hM] at h; simp at h
          | ok aggM =>
              rw [hM] at h
              simp at h
              refine ⟨aggY, aggQ, aggM, rfl, rfl, rfl, ?_,
                rolling_frequency aggQ 8 3 "Quarter" (aggregate_frequency hQ)⟩
              rw [h.symm]
              exact (List.append_assoc _ _ _).symm

/-- C9: after all SPC computation the composer rewrites the Date label of
exactly the rows tagged with frequency Quarter, turning a label of the
shape year-digits into year-Q-digits, and leaves every other field and
every row of the month and year tables unchanged. -/
theorem C9_quarter_relabel :
    (∀ l : List SpcRow, (quarterRelabel l).length = l.length ∧
      ∀ (i : Nat) (r : SpcRow), l[i]? = some r →
        (quarterRelabel l)[i]? =
          some (if r.frequency = "Quarter"
            then { r with Date := adjustQuarterDate r.Date } else r)) ∧
    (∀ y n : String, y.data.all Char.isDigit = true → n.data ≠ [] →
      n.data.all Char.isDigit = true →
      adjustQuarterDate (y ++ "-" ++ n) = y ++ "-Q" ++ n) ∧
    (∀ (raw : List RawRow) (out : List SpcRow), pipelineFinal raw = .ok out →
      ∃ aggY aggQ aggM,
        aggregate_dataframe (AddDateColumns raw) (fun r => r.Year) "Year" = .ok aggY ∧
        aggregate_dataframe (AddDateColumns raw) (fun r => r.Quarter) "Quarter" =
          .ok aggQ ∧
        aggregate_dataframe (AddDateColumns raw) (fun r => r.Month) "Month" = .ok aggM ∧
        out = rolling_spc_agg aggM 24 3 ++
          quarterRelabel (rolling_spc_agg aggQ 8 3) ++ rolling_spc_agg aggY 2 3 ∧
        (∀ r ∈ rolling_spc_agg aggQ 8 3, r.frequency = "Quarter")) := by
  refine ⟨?_, ?_, fun raw out h => pipelineFinal_ok h⟩
  · intro l
    constructor
    · simp [quarterRelabel]
    · intro i r hr
      simp only [quarterRelabel, List.getElem?_map, hr, Option.map_some']
  · intro y n hy hn0 hn
    unfold adjustQuarterDate
    apply String.ext
    show (relabelChars (y ++ "-" ++ n).data) = (y ++ "-Q" ++ n).data
    rw [String.data_append, String.data_append, String.data_append, String.data_append]
    have h1 : ("-" : String).data = ['-'] := rfl
    have h2 : ("-Q" : String).data = ['-', 'Q'] := rfl
    rw [h1, h2]
    rw [List.append_assoc, List.append_assoc]
    simp only [List.cons_append, List.nil_append]
    exact relabelChars_insert n.data hn hn0 y.data hy

/-- The full pipeline output for the concrete table exRaw. -/
def exFinal : List SpcRow :=
  match pipelineFinal exRaw with
  | .ok l => l
  | .error _ => []

/-- Witness for C9: the concrete quarter label 2024-3 is rewritten to
2024-Q3, and the pipeline on exRaw decomposes as the theorem states. -/
theorem C9_quarter_relabel_witness :
    (("2024" : String).data.all Char.isDigit = true ∧ ("3" : String).data ≠ [] ∧
      ("3" : String).data.all Char.isDigit = true ∧
      pipelineFinal exRaw = .ok exFinal) ∧
    (adjustQuarterDate ("2024" ++ "-" ++ "3") = "2024" ++ "-Q" ++ "3" ∧
      ∃ aggY aggQ aggM,
        aggregate_dataframe (AddDateColumns exRaw) (fun r => r.Year) "Year" = .ok aggY ∧
        aggregate_dataframe (AddDateColumns exRaw) (fun r => r.Quarter) "Quarter" =
          .ok aggQ ∧
        aggregate_dataframe (AddDateColumns exRaw) (fun r => r.Month) "Month" = .ok aggM ∧
        exFinal = rolling_spc_agg aggM 24 3 ++
          quarterRelabel (rolling_spc_agg aggQ 8 3) ++ rolling_spc_agg aggY 2 3 ∧
        (∀ r ∈ rolling_spc_agg aggQ 8 3, r.frequency = "Quarter")) :=
  ⟨⟨by decide, by decide, by decide, by with_unfolding_all rfl⟩,
   ⟨C9_quarter_relabel.2.1 "2024" "3" (by decide) (by decide) (by decide),
    C9_quarter_relabel.2.2 exRaw exFinal (by with_unfolding_all rfl)⟩⟩

theorem parseDate_month_bounds {s : String} {d : PDate} (h : parseDate s = some d) :
    1 ≤ d.month ∧ d.month ≤ 12 := by
  unfold parseDate at h
  split at h
  all_goals try exact Option.noConfusion h
  all_goals split at h
  all_goals try exact Option.noConfusion h
  all_goals split at h
  all_goals try exact Option.noConfusion h
  · rename_i hb
    cases h
    exact hb
  · rename_i hb
    cases h
    exact ⟨hb.1, hb.2.1⟩

theorem quarterOf_bounds {m : Nat} (h1 : 1 ≤ m) (h2 : m ≤ 12) :
    1 ≤ quarterOf m ∧ quarterOf m ≤ 4 := by
  unfold quarterOf
  omega

theorem AddDateColumns_getElem {df : List RawRow} {i : Nat} {r : RawRow} {o : DecRow}
    (hi : df[i]? = some r) (ho : (AddDateColumns df)[i]? = some o) :
    o.toRawRow = r ∧ o.parsed = parseDate r.date ∧
    o.Year = intLabel (df.any (fun x => (parseDate x.date).isNone))
      ((parseDate r.date).map (fun d => d.year)) ∧
    o.Quarter = o.Year ++ "-" ++ intLabel (df.any (fun x => (parseDate x.date).isNone))
      ((parseDate r.date).map (fun d => (quarterOf d.month : Int))) ∧
    o.Month = o.Year ++ "-" ++ zfill 2 (intLabel (df.any (fun x => (parseDate x.date).isNone))
      ((parseDate r.date).map (fun d => (d.month : Int)))) := by
  simp only [AddDateColumns, List.getElem?_map, hi, Option.map_some', Option.some.injEq] at ho
  rw [← ho]
  exact ⟨rfl, rfl, rfl, rfl, rfl⟩

/-- C10: the Period Decomposer's labels match the documented integer
formats (Year "YYYY", Quarter "YYYY-q", Month "YYYY-MM" zero padded) only
when every date value in the column parses.  As soon as one value is
unparseable the datetime component columns are float typed, so every row
of the table, the fully valid ones included, is rendered with
float-formatted labels such as "2024.0" and "2024.0-3.0", the unparseable
rows get "nan"-based labels that strToInt? and parseYS reject, and the
Period Sorter fails on any table holding a label its integer key parse
cannot consume. -/
theorem C10_label_typing (df : List RawRow) :
    ((∀ r ∈ df, (parseDate r.date).isSome = true) →
      ∀ (i : Nat) (r : RawRow) (o : DecRow), df[i]? = some r →
        (AddDateColumns df)[i]? = some o →
        ∀ d : PDate, parseDate r.date = some d →
          o.Year = toString d.year ∧
          o.Quarter = toString d.year ++ "-" ++ toString ((quarterOf d.month : Int)) ∧
          o.Month = toString d.year ++ "-" ++ zfill 2 (toString ((d.month : Int))) ∧
          1 ≤ quarterOf d.month ∧ quarterOf d.month ≤ 4) ∧
    ((∃ r ∈ df, parseDate r.date = none) →
      ∀ (i : Nat) (r : RawRow) (o : DecRow), df[i]? = some r →
        (AddDateColumns df)[i]? = some o →
        (∀ d : PDate, parseDate r.date = some d →
          o.Year = toString d.year ++ ".0" ∧
          o.Quarter = (toString d.year ++ ".0") ++ "-" ++
            (toString ((quarterOf d.month : Int)) ++ ".0") ∧
          o.Month = (toString d.year ++ ".0") ++ "-" ++
            zfill 2 (toString ((d.month : Int)) ++ ".0")) ∧
        (parseDate r.date = none →
          o.Year = "nan" ∧ o.Quarter = "nan-nan" ∧ o.Month = "nan-nan" ∧
          strToInt? o.Year = none ∧ parseYS o.Quarter = none ∧
          parseYS o.Month = none)) ∧
    (∀ (rows : List AggRow) (f : String),
      (∃ r ∈ rows, labelKey f r.Date = none) →
      sort_by_date rows f = .error "period label does not parse as an integer sort key") := by
  refine ⟨?_, ?_, ?_⟩
  · intro hall i r o hi ho d hd
    obtain ⟨-, -, hY, hQ, hM⟩ := AddDateColumns_getElem hi ho
    have hnat : df.any (fun x => (parseDate x.date).isNone) = false := by
      rw [List.any_eq_false]
      intro x hx hcon
      have h2 := hall x hx
      rw [Option.isNone_iff_eq_none] at hcon
      rw [hcon] at h2
      simp at h2
    rw [hnat, hd] at hY hQ hM
    simp only [Option.map_some', intLabel] at hY hQ hM
    rw [hY] at hQ hM
    have hb := parseDate_month_bounds hd
    have hqb := quarterOf_bounds hb.1 hb.2
    exact ⟨hY, hQ, hM, hqb.1, hqb.2⟩
  · intro hex i r o hi ho
    obtain ⟨-, -, hY, hQ, hM⟩ := AddDateColumns_getElem hi ho
    have hnat : df.any (fun x => (parseDate x.date).isNone) = true := by
      rw [List.any_eq_true]
      obtain ⟨r2, hr2, hn⟩ := hex
      exact ⟨r2, hr2, by rw [hn]; rfl⟩
    rw [hnat] at hY hQ hM
    constructor
    · intro d hd
      rw [hd] at hY hQ hM
      simp only [Option.map_some', intLabel] at hY hQ hM
      rw [hY] at hQ hM
      exact ⟨hY, hQ, hM⟩
    · intro hd
      rw [hd] at hY hQ hM
      simp only [Option.map_none', intLabel] at hY hQ hM
      rw [hY] at hQ hM
      refine ⟨hY, ?_, ?_, ?_, ?_, ?_⟩
      · rw [hQ]; rfl
      · rw [hM]; rfl
      · rw [hY]; rfl
      · rw [hQ]; rfl
      · rw [hM]; rfl
  · intro rows f hex
    obtain ⟨r, hr, hk⟩ := hex
    have hm : mapO (fun r => (labelKey f r.Date).map (fun p => (r, p.1, p.2))) rows
        = none := mapO_none _ ⟨r, hr, by rw [hk]; rfl⟩
    simp only [sort_by_date, hm]

/-- One aggregated row whose period label the Year-branch integer parse
of the Period Sorter cannot consume. -/
def exAggBadLbl : List AggRow :=
  [{ Measure := "A", Definitions := "D", Multiplier := 100, Numerator := 1,
     Denominator := 5, Expected_Events := 0, frequency := "Year",
     Rate := PFloat.nan, Date := "nan" }]

theorem C10_label_typing_witness :
    ((AddDateColumns exRaw)[0]?.map (fun o => (o.Year, o.Quarter, o.Month))
        = some ("2024", "2024-1", "2024-01")) ∧
    ((AddDateColumns exRawBad)[0]?.map (fun o => (o.Year, o.Quarter, o.Month))
        = some ("2024.0", "2024.0-1.0", "2024.0-1.0")) ∧
    ((AddDateColumns exRawBad)[4]?.map (fun o => (o.Year, o.Quarter, o.Month))
        = some ("nan", "nan-nan", "nan-nan")) ∧
    sort_by_date exAggBadLbl "Year"
        = .error "period label does not parse as an integer sort key" := by
  have ho1 : (AddDateColumns exRaw)[0]? = some
      { Measure := "A", Definitions := "D", Multiplier := 100, Numerator := 1,
        Denominator := 10, Expected_Events := 0, date := "2024-01-15",
        parsed := some ⟨2024, 1⟩, Year := "2024", Quarter := "2024-1",
        Month := "2024-01" } := by decide
  have h1 := (C10_label_typing exRaw).1 (by decide) 0
      { Measure := "A", Definitions := "D", Multiplier := 100, Numerator := 1,
        Denominator := 10, Expected_Events := 0, date := "2024-01-15" }
      _ (by decide) ho1 ⟨2024, 1⟩ (by decide)
  have ho2 : (AddDateColumns exRawBad)[0]? = some
      { Measure := "A", Definitions := "D", Multiplier := 100, Numerator := 1,
        Denominator := 10, Expected_Events := 0, date := "2024-01-15",
        parsed := some ⟨2024, 1⟩, Year := "2024.0", Quarter := "2024.0-1.0",
        Month := "2024.0-1.0" } := by decide
  have hex : ∃ r ∈ exRawBad, parseDate r.date = none := by decide
  have h2 := ((C10_label_typing exRawBad).2.1 hex 0
      { Measure := "A", Definitions := "D", Multiplier := 100, Numerator := 1,
        Denominator := 10, Expected_Events := 0, date := "2024-01-15" }
      _ (by decide) ho2).1 ⟨2024, 1⟩ (by decide)
  have ho3 : (AddDateColumns exRawBad)[4]? = some
      { Measure := "A", Definitions := "D", Multiplier := 100, Numerator := 1,
        Denominator := 5, Expected_Events := 0, date := "notadate",
        parsed := none, Year := "nan", Quarter := "nan-nan",
        Month := "nan-nan" } := by decide
  have h3 := ((C10_label_typing exRawBad).2.1 hex 4
      { Measure := "A", Definitions := "D", Multiplier := 100, Numerator := 1,
        Denominator := 5, Expected_Events := 0, date := "notadate" }
      _ (by decide) ho3).2 (by decide)
  have h4 := (C10_label_typing exRawBad).2.2 exAggBadLbl "Year" (by decide)
  refine ⟨?_, ?_, ?_, h4⟩
  · rw [ho1, Option.map_some', h1.1, h1.2.1, h1.2.2.1]; decide
  · rw [ho2, Option.map_some', h2.1, h2.2.1, h2.2.2]; decide
  · rw [ho3, Option.map_some', h3.1, h3.2.1, h3.2.2.1]

theorem sort_by_date_error {rows : List AggRow} {f : String}
    (hex : ∃ r ∈ rows, labelKey f r.Date = none) :
    sort_by_date rows f = .error "period label does not parse as an integer sort key" := by
  obtain ⟨r, hr, hk⟩ := hex
  have hm : mapO (fun r => (labelKey f r.Date).map (fun p => (r, p.1, p.2))) rows
      = none := mapO_none _ ⟨r, hr, by rw [hk]; rfl⟩
  simp only [sort_by_date, hm]

/-- C2: an unparseable date value is indeed non-fatal at the Period
Decomposer, which keeps the row and labels it "nan", but the row does not
flow into an unknown-period bucket of the output: the Period Sorter's
integer conversion inside the first aggregation raises on that label and
the whole pipeline run aborts with an error, so no output is produced at
all. -/
theorem C2_unparseable_date (raw : List RawRow)
    (hex : ∃ r ∈ raw, parseDate r.date = none) :
    (AddDateColumns raw).length = raw.length ∧
    (∀ (i : Nat) (r : RawRow), raw[i]? = some r → parseDate r.date = none →
      (AddDateColumns raw)[i]?.map (fun o => (o.toRawRow, o.Year))
        = some (r, "nan")) ∧
    pipelineFinal raw = .error "period label does not parse as an integer sort key" := by
  have hnat : raw.any (fun x => (parseDate x.date).isNone) = true := by
    rw [List.any_eq_true]
    obtain ⟨rb, hrb, hnb⟩ := hex
    exact ⟨rb, hrb, by rw [hnb]; rfl⟩
  refine ⟨?_, ?_, ?_⟩
  · simp [AddDateColumns]
  · intro i r hi hd
    simp only [AddDateColumns, List.getElem?_map, hi, Option.map_some',
      Option.some.injEq]
    rw [hd, hnat]
    rfl
  · obtain ⟨rb, hrb, hnb⟩ := hex
    have hbadkey : ∃ a ∈ (groupKeys (AddDateColumns raw) (fun o => o.Year)).map
        (aggRowOf (AddDateColumns raw) (fun o => o.Year) "Year"),
        labelKey "Year" a.Date = none := by
      have homem : ∃ o ∈ AddDateColumns raw, o.Year = "nan" := by
        simp only [AddDateColumns]
        refine ⟨_, List.mem_map_of_mem _ hrb, ?_⟩
        show intLabel (raw.any (fun x => (parseDate x.date).isNone))
          ((parseDate rb.date).map (fun d => d.year)) = "nan"
        rw [hnat, hnb]
        rfl
      obtain ⟨o, ho, hoy⟩ := homem
      have hk : gKey (fun o => o.Year) o ∈ groupKeys (AddDateColumns raw)
          (fun o => o.Year) := by
        unfold groupKeys
        rw [(List.perm_insertionSort gRel _).mem_iff]
        exact List.mem_dedup.mpr (List.mem_map_of_mem _ ho)
      refine ⟨_, List.mem_map_of_mem _ hk, ?_⟩
      show labelKey "Year" (aggRowOf (AddDateColumns raw) (fun o => o.Year) "Year"
        (gKey (fun o => o.Year) o)).Date = none
      have hdate : (aggRowOf (AddDateColumns raw) (fun o => o.Year) "Year"
          (gKey (fun o => o.Year) o)).Date = o.Year := rfl
      rw [hdate, hoy]
      rfl
    have hagg : aggregate_dataframe (AddDateColumns raw) (fun o => o.Year) "Year"
        = .error "period label does not parse as an integer sort key" := by
      simp only [aggregate_dataframe, sort_by_date_error hbadkey]
    simp only [pipelineFinal, hagg]

theorem C2_unparseable_date_witness :
    (∃ r ∈ exRawBad, parseDate r.date = none) ∧
    (AddDateColumns exRawBad).length = exRawBad.length ∧
    ((AddDateColumns exRawBad)[4]?.map (fun o => (o.toRawRow, o.Year))
        = some ({ Measure := "A", Definitions := "D", Multiplier := 100,
                  Numerator := 1, Denominator := 5, Expected_Events := 0,
                  date := "notadate" }, "nan")) ∧
    pipelineFinal exRawBad
        = .error "period label does not parse as an integer sort key" := by
  have hex : ∃ r ∈ exRawBad, parseDate r.date = none := by decide
  have h := C2_unparseable_date exRawBad hex
  exact ⟨hex, h.1, h.2.1 4 _ (by decide) (by decide), h.2.2⟩

/-- C3 counterexample: the original claim is false — the Period Sorter
does not leave its argument unchanged.  On a two-row year-level table the
call writes the parsing helper column Year into the caller's table. -/
theorem C3_counterexample : (sort_by_dateF exFrame "Year").1 ≠ exFrame := by
  decide

/-- C3 (amended): the Period Decomposer copies its argument before
assigning, and the Temporal Aggregator and the Rolling SPC Engine only
build frames of their own, so those three components leave the caller's
table unchanged; but the Period Sorter assigns its parsing helper columns
directly on the caller's table, so whenever the Year-branch integer
conversion succeeds on a table with no Year column the caller's table has
gained that column after the call — the component mutates its input. -/
theorem C3_mutation (df : Frame) (dates : List Val) (ys : List Int)
    (hdc : df.getCol "Date" = some dates)
    (hys : mapO cellToInt? dates = some ys)
    (hno : "Year" ∉ df.cols) :
    (∀ (g : Frame) (c : String), (AddDateColumnsF g c).1 = g) ∧
    (∀ g : Frame, aggregateArgAfter g = g ∧ rollingArgAfter g = g) ∧
    ((sort_by_dateF df "Year").1).cols = df.cols ++ ["Year"] ∧
    (sort_by_dateF df "Year").1 ≠ df := by
  have hcols : ((sort_by_dateF df "Year").1).cols = df.cols ++ ["Year"] := by
    have hidx : df.colIdx "Year" = none := by
      unfold Frame.colIdx
      rw [List.findIdx?_eq_none_iff]
      intro x hx
      cases hbe : x == "Year" with
      | false => rfl
      | true =>
          exact absurd (by rw [eq_of_beq hbe] at hx; exact hx) hno
    simp only [sort_by_dateF, if_pos rfl, hdc, hys]
    show (Frame.setCol df "Year" (ys.map Val.vi)).cols = df.cols ++ ["Year"]
    unfold Frame.setCol
    rw [hidx]
  refine ⟨?_, ?_, hcols, ?_⟩
  · intro g c
    unfold AddDateColumnsF
    cases h : g.getCol c with
    | none => rfl
    | some cells => rfl
  · intro g
    exact ⟨rfl, rfl⟩
  · intro heq
    have h2 : df.cols ++ ["Year"] = df.cols := by rw [← hcols, heq]
    simp at h2

theorem C3_mutation_witness :
    exFrame.getCol "Date" = some [Val.vs "2025", Val.vs "2024"] ∧
    mapO cellToInt? [Val.vs "2025", Val.vs "2024"] = some [2025, 2024] ∧
    "Year" ∉ exFrame.cols ∧
    ((sort_by_dateF exFrame "Year").1).cols = exFrame.cols ++ ["Year"] := by
  have h := C3_mutation exFrame [Val.vs "2025", Val.vs "2024"] [2025, 2024]
    (by decide) (by decide) (by decide)
  exact ⟨by decide, by decide, by decide, h.2.2.1⟩

theorem findIdx_append_notmem_go {x : String} (t : List String) :
    ∀ l : List String, x ∉ l → ∀ i : Nat,
      List.findIdx? (fun n => n == x) (l ++ x :: t) i = some (l.length + i) := by
  intro l
  induction l with
  | nil =>
      intro h i
      simp [List.findIdx?]
  | cons a l ih =>
      intro h i
      have hax : (a == x) = false := by
        cases hbe : a == x with
        | false => rfl
        | true =>
            exact absurd (by rw [eq_of_beq hbe]; exact List.mem_cons_self x l) h
      simp only [List.cons_append, List.findIdx?, List.append_eq, hax,
        Bool.false_eq_true, if_false]
      rw [ih (fun hm => h (List.mem_cons_of_mem a hm)) (i + 1)]
      congr 1
      simp only [List.length_cons]
      omega

theorem findIdx_append_notmem {l : List String} {x : String} (t : List String)
    (h : x ∉ l) :
    (l ++ x :: t).findIdx? (fun n => n == x) = some l.length := by
  have h2 := findIdx_append_notmem_go t l h 0
  simpa using h2

theorem eraseIdx_append_len {α : Type} (l : List α) (x : α) (t : List α) :
    (l ++ x :: t).eraseIdx l.length = l ++ t := by
  induction l with
  | nil => rfl
  | cons a l ih =>
      show a :: ((l ++ x :: t).eraseIdx l.length) = a :: (l ++ t)
      rw [ih]

theorem setCol_cols_of_notmem {df : Frame} {c : String} (h : c ∉ df.cols)
    (vals : List Val) : (df.setCol c vals).cols = df.cols ++ [c] := by
  have hidx : df.colIdx c = none := by
    unfold Frame.colIdx
    rw [List.findIdx?_eq_none_iff]
    intro x hx
    cases hbe : x == c with
    | false => rfl
    | true => exact absurd (by rw [eq_of_beq hbe] at hx; exact hx) h
  unfold Frame.setCol
  rw [hidx]

theorem setCol_cols_of_mem {df : Frame} {c : String} (h : c ∈ df.cols)
    (vals : List Val) : (df.setCol c vals).cols = df.cols := by
  unfold Frame.setCol
  cases hidx : df.colIdx c with
  | some j => rfl
  | none =>
      exfalso
      unfold Frame.colIdx at hidx
      rw [List.findIdx?_eq_none_iff] at hidx
      have h2 := hidx c h
      simp at h2

theorem dropCol_cols {df : Frame} {l t : List String} {x : String}
    (hc : df.cols = l ++ x :: t) (h : x ∉ l) :
    (df.dropCol x).cols = l ++ t := by
  unfold Frame.dropCol Frame.colIdx
  rw [hc, findIdx_append_notmem t h]
  exact eraseIdx_append_len l x t

theorem sortF_helper_cols {df : Frame} {sub : String} (v1 v2 v3 v4 : List Val)
    (hY : "Year" ∉ df.cols) (hs : sub ∉ df.cols) (hne : sub ≠ "Year") :
    ((((df.setCol "Year" v1).setCol sub v2).setCol "Year" v3).setCol sub v4).cols
      = df.cols ++ "Year" :: [sub] := by
  have hc1 := setCol_cols_of_notmem hY v1
  have hs1 : sub ∉ (df.setCol "Year" v1).cols := by
    rw [hc1]
    intro hm
    rcases List.mem_append.mp hm with h1 | h2
    · exact hs h1
    · exact hne (List.mem_singleton.mp h2)
  have hc2 := setCol_cols_of_notmem hs1 v2
  have hy2 : "Year" ∈ ((df.setCol "Year" v1).setCol sub v2).cols := by
    rw [hc2, hc1]
    simp
  have hc3 := setCol_cols_of_mem hy2 v3
  have hs3 : sub ∈ (((df.setCol "Year" v1).setCol sub v2).setCol "Year" v3).cols := by
    rw [hc3, hc2]
    simp
  have hc4 := setCol_cols_of_mem hs3 v4
  rw [hc4, hc3, hc2, hc1, List.append_assoc]
  rfl

/-- C6: on a table whose period labels all parse, the Period Sorter
returns a permutation of the input sorted by (Measure, year, sub-period)
ascending — so within each Measure the chronological key sequence is
non-decreasing for every granularity — and, at the column level, the
temporary parsing helper columns it wrote are dropped again before the
table is returned, so the returned table carries exactly the input's
columns. -/
theorem C6_sorted_output :
    (∀ (rows out : List AggRow) (f : String), sort_by_date rows f = .ok out →
      out.Perm rows ∧ out.Pairwise (rowLE f) ∧
      out.Pairwise (fun a b => a.Measure = b.Measure →
        dateKeyD f a.Date ≤ dateKeyD f b.Date)) ∧
    (∀ (df out : Frame), "Year" ∉ df.cols →
      (sort_by_dateF df "Year").2 = .ok out → out.cols = df.cols) ∧
    (∀ (df out : Frame) (f : String), f ≠ "Year" →
      "Year" ∉ df.cols →
      (if f = "Quarter" then "QuarterNum" else "MonthNum") ∉ df.cols →
      (sort_by_dateF df f).2 = .ok out → out.cols = df.cols) := by
  refine ⟨?_, ?_, ?_⟩
  · intro rows out f h
    obtain ⟨hperm, hpair, -⟩ := sort_by_date_ok h
    refine ⟨hperm, hpair, ?_⟩
    refine hpair.imp ?_
    intro a b hab hm
    unfold rowLE at hab
    rcases (Prod.Lex.le_iff _ _).mp hab with hlt | hp
    · rw [hm] at hlt
      exact absurd hlt (lt_irrefl _)
    · exact hp.2
  · intro df out hY h
    unfold sort_by_dateF at h
    rw [if_pos rfl] at h
    split at h
    · simp at h
    · split at h
      · simp at h
      · have hout := Except.ok.inj h
        rw [← hout]
        refine Eq.trans (@dropCol_cols _ df.cols [] "Year" ?_ hY)
          (List.append_nil _)
        exact setCol_cols_of_notmem hY _
  · intro df out f hf hY hS h
    unfold sort_by_dateF at h
    rw [if_neg hf] at h
    split at h
    · rename_i hfq
      rw [if_pos hfq] at hS
      split at h
      · simp at h
      · split at h
        · simp at h
        · split at h
          · simp at h
          · have hout := Except.ok.inj h
            rw [← hout]
            refine Eq.trans (@dropCol_cols _ df.cols [] "QuarterNum" ?_ hS)
              (List.append_nil _)
            refine @dropCol_cols _ df.cols ["QuarterNum"] "Year" ?_ hY
            exact sortF_helper_cols _ _ _ _ hY hS (by decide)
    · rename_i hfq
      rw [if_neg hfq] at hS
      split at h
      · simp at h
      · split at h
        · simp at h
        · split at h
          · simp at h
          · have hout := Except.ok.inj h
            rw [← hout]
            refine Eq.trans (@dropCol_cols _ df.cols [] "MonthNum" ?_ hS)
              (List.append_nil _)
            refine @dropCol_cols _ df.cols ["MonthNum"] "Year" ?_ hY
            exact sortF_helper_cols _ _ _ _ hY hS (by decide)

/-- The chronologically sorted order of exAggQ. -/
def exAggQsorted : List AggRow :=
  [{ Measure := "A", Definitions := "D", Multiplier := 100, Numerator := 1,
     Denominator := 10, Expected_Events := 0, frequency := "Quarter",
     Rate := PFloat.fin 10, Date := "2024-1" },
   { Measure := "A", Definitions := "D", Multiplier := 100, Numerator := 2,
     Denominator := 10, Expected_Events := 0, frequency := "Quarter",
     Rate := PFloat.fin 20, Date := "2024-2" }]

/-- The year-level sort of exFrame at the column level. -/
def exFrameSorted : Frame :=
  { cols := ["Measure", "Date"]
    rows := [[Val.vs "A", Val.vs "2024"], [Val.vs "A", Val.vs "2025"]] }

/-- A two-row quarter-labelled frame, out of chronological order. -/
def exFrameQ : Frame :=
  { cols := ["Measure", "Date"]
    rows := [[Val.vs "A", Val.vs "2024-2"], [Val.vs "A", Val.vs "2024-1"]] }

/-- The quarter-level sort of exFrameQ at the column level. -/
def exFrameQSorted : Frame :=
  { cols := ["Measure", "Date"]
    rows := [[Val.vs "A", Val.vs "2024-1"], [Val.vs "A", Val.vs "2024-2"]] }

theorem C6_sorted_output_witness :
    sort_by_date exAggQ "Quarter" = .ok exAggQsorted ∧
    exAggQsorted.Perm exAggQ ∧
    exAggQsorted.Pairwise (rowLE "Quarter") ∧
    (sort_by_dateF exFrame "Year").2 = .ok exFrameSorted ∧
    exFrameSorted.cols = exFrame.cols ∧
    (sort_by_dateF exFrameQ "Quarter").2 = .ok exFrameQSorted ∧
    exFrameQSorted.cols = exFrameQ.cols := by
  have hs : sort_by_date exAggQ "Quarter" = .ok exAggQsorted := by
    with_unfolding_all rfl
  have h1 := C6_sorted_output.1 exAggQ exAggQsorted "Quarter" hs
  have hfy : (sort_by_dateF exFrame "Year").2 = .ok exFrameSorted := by
    with_unfolding_all rfl
  have h2 := C6_sorted_output.2.1 exFrame exFrameSorted (by decide) hfy
  have hfq : (sort_by_dateF exFrameQ "Quarter").2 = .ok exFrameQSorted := by
    with_unfolding_all rfl
  have h3 := C6_sorted_output.2.2 exFrameQ exFrameQSorted "Quarter" (by decide)
    (by decide) (by decide) hfq
  exact ⟨hs, h1.1, h1.2.1, hfy, h2, hfq, h3⟩
